import Mathlib

/-!
# Session core of the board-game server: embedding and verification

Source files embedded here:

* `server/model/server.go`  (the `Server` type and its operations)
* `server/model/chess-meta-move-rules.go`  (`IsMovePossible`)

## Modelling conventions

* A `*ws.Client` is a pointer used only for its identity and for its `Send`
  channel.  It is modelled by a `ClientRef` (a natural number); everything that
  was written on some client's `Send` channel is recorded, oldest first, in the
  field `sent` of the server state.  Arguments of pointer type are taken to be
  non-nil unless the type says otherwise.
* A Go `map[K]V` is an association list `GoMap K V`.  Go iterates a map in an
  unspecified order; the order of the list stands for the order of one
  iteration, and every theorem quantifies over all lists, hence over all
  orders.  A Go map never has two entries for one key (`GoMap.WF`).
* A `*Profile` that may be nil is an `Option Profile`.  The only field read
  through a `Player`'s profile pointer is `Client`, which nothing changes after
  the profile is created, so a `Player` carries the profile by value.
* A `*Game` stored in `Games` is identified with the key it is stored under:
  a write through the pointer is a `store` at that key.
* An operation that can dereference a nil pointer returns an `Option`; `none`
  is the run-time panic.
* Values the source draws from outside (fresh ids, secrets, titles) are
  passed in as arguments.
* `log.Println` produces no state; only the evaluation of its arguments is
  modelled, because it can dereference nil.
* `json.Marshal` of a reply is modelled by the reply itself.
-/

namespace Chess

/-! ## Go maps as association lists -/

/-- A Go map, as the list of its entries. -/
abbrev GoMap (K V : Type) := List (K × V)

namespace GoMap

variable {K V : Type} [DecidableEq K]

/-- The value of `m[k]`, with `none` for the zero value of a pointer type. -/
def lookup : GoMap K V → K → Option V
  | [], _ => none
  | (k', v) :: m, k => if k' = k then some v else lookup m k

/-- The map after `m[k] = v`. -/
def store : GoMap K V → K → V → GoMap K V
  | [], k, v => [(k, v)]
  | (k', v') :: m, k, v => if k' = k then (k, v) :: m else (k', v') :: store m k v

/-- The map after `delete(m, k)`. -/
def remove : GoMap K V → K → GoMap K V
  | [], _ => []
  | (k', v) :: m, k => if k' = k then remove m k else (k', v) :: remove m k

/-- The keys of the map, in iteration order. -/
def keys (m : GoMap K V) : List K := m.map Prod.fst

/-- No key occurs twice: what the Go map type guarantees. -/
def WF (m : GoMap K V) : Prop := (m.map Prod.fst).Nodup

end GoMap

/-! ## Data model -/

/-- Identity of a `*ws.Client`. -/
abbrev ClientRef := Nat

/-- The `Profile` struct: the fields the server reads or writes. -/
structure Profile where
  Client : ClientRef
  Nick : String
  Secret : String
  ID : String
deriving DecidableEq, Repr

/-- The `Player` struct.  `Profile` is a pointer and may be nil. -/
structure Player where
  Profile : Option Profile
  Team : Int
deriving DecidableEq, Repr

/-- Replies written to a client's `Send` channel (the `CreateMessage...`
constructors of the message file, encoded by `json.Marshal`). -/
inductive Message where
  | error (title detail : String)
  | viewBoard
  | secret (secret id : String)
  | listOfGames (games : List (GoMap String String))
deriving DecidableEq, Repr

/-- The body of a decoded move request (`MessageMove`); its fields are not
read by the server operations. -/
abbrev MessageMove := String

/-- The closures the server passes to `Game.DoWork`, one constructor per
closure literal in `server.go`. -/
inductive Task where
  | announceShare (b : Message)
  | startGame
  | move (client : ClientRef) (message : MessageMove)
  | changeSeat (client : ClientRef) (seat : Int)
deriving DecidableEq, Repr

/-- Modelled from the spec: the `Game` struct (game.go is not among the
sources).  The spec lists id, title, owner Player, ordered collection of
Players, capacity limits, canStartBeforeFull flag, lifecycle state and a
private task queue.  `maxPlayers` is what `MaxPlayers()` returns, `todo` the
tasks handed to `DoWork` and not yet run, oldest first. -/
structure Game where
  ID : String
  Title : String
  Owner : Player
  Players : List Player
  CanStartBeforeFull : Bool
  maxPlayers : Nat
  started : Bool
  stopped : Bool
  todo : List Task
deriving DecidableEq, Repr

/-- The `Server` struct, without the dispatch queue and its handler, and with
the record `sent` of what was written on the clients' `Send` channels. -/
structure Server where
  Address : String
  Lobby : GoMap ClientRef Profile
  Games : GoMap String Game
  canStartBeforeFull : Bool
  sent : List (ClientRef × Message)
deriving DecidableEq, Repr

/-- The state `CreateServer` builds: empty Lobby, empty Games. -/
def CreateServer (address : String) (canStartBeforeFull : Bool) : Server :=
  { Address := address, Lobby := [], Games := [],
    canStartBeforeFull := canStartBeforeFull, sent := [] }

/-- The write `client.Send <- b`. -/
def Server.send (s : Server) (client : ClientRef) (b : Message) : Server :=
  { s with sent := s.sent ++ [(client, b)] }

/-! ## Collaborators of the session file, modelled from the spec -/

/-- What a new profile receives from outside: its initial nickname, secret
token and id. -/
structure FreshProfile where
  Nick : String
  Secret : String
  ID : String
deriving DecidableEq, Repr

/-- What a new session receives from outside: its fresh id, its title and its
capacity. -/
structure FreshGame where
  ID : String
  Title : String
  MaxPlayers : Nat
deriving DecidableEq, Repr

/-- Modelled from the spec: `CreateProfile(client)` (profile.go is not among
the sources).  "Profile: clientRef, nickname, secret token, id. Created on
first contact." -/
def CreateProfile (client : ClientRef) (fresh : FreshProfile) : Profile :=
  { Client := client, Nick := fresh.Nick, Secret := fresh.Secret, ID := fresh.ID }

/-- Modelled from the spec: the package-level `CreateGame(player)` (game.go is
not among the sources).  "Creates a new Game Session with a fresh unique id";
the creator is the owner, and a Player "exists only inside exactly one Game
Session's player list", so the creator is the first player.  The session is
waiting and its task queue is empty. -/
def CreateGame (player : Player) (fresh : FreshGame) : Game :=
  { ID := fresh.ID, Title := fresh.Title, Owner := player, Players := [player],
    CanStartBeforeFull := false, maxPlayers := fresh.MaxPlayers,
    started := false, stopped := false, todo := [] }

/-- Modelled from the spec: `Game.DoWork(fn)` (game.go is not among the
sources).  "Enqueues fn to the session's own private task queue." -/
def Game.DoWork (game : Game) (fn : Task) : Game :=
  { game with todo := game.todo ++ [fn] }

/-- Modelled from the spec: `Game.JoinGame(player)` (game.go is not among the
sources).  "Returns false without mutating state if the session is already at
capacity or, depending on configuration, already started and
canStartBeforeFull forbids late joins"; otherwise the player is added. -/
def Game.JoinGame (game : Game) (player : Player) : Bool × Game :=
  if game.maxPlayers ≤ game.Players.length then (false, game)
  else if game.started && !game.CanStartBeforeFull then (false, game)
  else (true, { game with Players := game.Players ++ [player] })

/-- A player is the seat of `client` when its profile is that client's. -/
def Player.isClient (player : Player) (client : ClientRef) : Bool :=
  match player.Profile with
  | none => false
  | some pr => decide (pr.Client = client)

/-- Modelled from the spec: `Game.RemoveClient(client)` (game.go is not among
the sources).  "Removes the client from whatever session it is playing in." -/
def Game.RemoveClient (game : Game) (client : ClientRef) : Game :=
  { game with Players := game.Players.filter (fun p => !p.isClient client) }

/-- Modelled from the spec: `Game.Stop()` (game.go is not among the sources).
"Releases the session's worker and queue." -/
def Game.Stop (game : Game) : Game :=
  { game with stopped := true }

/-- Modelled from the spec: `Game.MaxPlayers()` (game.go is not among the
sources): the capacity of the session. -/
def Game.MaxPlayers (game : Game) : Nat := game.maxPlayers

/-! ## The operations of `server.go` -/

/-- The inner loop of `GameByClientPlaying` over one session's players:
`some true` when a player of `client` is met, `some false` when the list is
exhausted, `none` when `player.Profile` is nil at the comparison. -/
def playersScan (client : ClientRef) : List Player → Option Bool
  | [] => some false
  | player :: rest =>
    match player.Profile with
    | none => none
    | some pr => if pr.Client = client then some true else playersScan client rest

/-- The outer loop of `GameByClientPlaying` over the entries of `Games`. -/
def gamesScanPlaying (client : ClientRef) :
    GoMap String Game → Option (Option (String × Game))
  | [] => some none
  | (k, game) :: rest =>
    match playersScan client game.Players with
    | none => none
    | some true => some (some (k, game))
    | some false => gamesScanPlaying client rest

/-- The loop of `GameByClientOwner` over the entries of `Games`. -/
def gamesScanOwner (client : ClientRef) :
    GoMap String Game → Option (Option (String × Game))
  | [] => some none
  | (k, game) :: rest =>
    match game.Owner.Profile with
    | none => none
    | some pr =>
      if pr.Client = client then some (some (k, game)) else gamesScanOwner client rest

/-- `GameByClientOwner`: `some (some (k, game))` is `found = true` with the
session stored under key `k`, `some none` is `found = false` with a nil
session, `none` is a nil dereference. -/
def Server.GameByClientOwner (s : Server) (client : ClientRef) :
    Option (Option (String × Game)) :=
  gamesScanOwner client s.Games

/-- `GameByClientPlaying`, with the same reading of the result. -/
def Server.GameByClientPlaying (s : Server) (client : ClientRef) :
    Option (Option (String × Game)) :=
  gamesScanPlaying client s.Games

/-- `GetOrCreateProfile`: the profile returned and the state afterwards. -/
def Server.GetOrCreateProfile (s : Server) (client : ClientRef) (fresh : FreshProfile) :
    Profile × Server :=
  match s.Lobby.lookup client with
  | some p => (p, s)
  | none =>
    let p := CreateProfile client fresh
    (p, { s with Lobby := s.Lobby.store client p })

/-- `Server.CreateGame`: the session returned and the state afterwards.  The
task is the closure "announce the board view, then share state". -/
def Server.CreateGame (s : Server) (client : ClientRef) (fresh : FreshGame) :
    Game × Server :=
  let player : Player := { Profile := s.Lobby.lookup client, Team := 1 }
  let game := Chess.CreateGame player fresh
  let game := { game with CanStartBeforeFull := s.canStartBeforeFull }
  let games := s.Games.store game.ID game
  let game := game.DoWork (Task.announceShare Message.viewBoard)
  (game, { s with Games := games.store game.ID game })

/-- `Server.JoinGame`: the session returned and the state afterwards.  The
result is `none` when `s.Games[gameID]` is nil, since the session's `JoinGame`
then reads the player list of a nil session, and when the joining player's
profile is nil at `player.Profile.Nick`. -/
def Server.JoinGame (s : Server) (gameID : String) (p : Profile) :
    Option (Game × Server) :=
  let player : Player := { Profile := s.Lobby.lookup p.Client, Team := 0 }
  match s.Games.lookup gameID with
  | none => none
  | some game =>
    match game.JoinGame player with
    | (false, game) =>
      let s := { s with Games := s.Games.store gameID game }
      some (game, s.send p.Client (Message.error "Could not join game" "Server is full"))
    | (true, game) =>
      let game := game.DoWork (Task.announceShare Message.viewBoard)
      match player.Profile with
      | none => none
      | some _ => some (game, { s with Games := s.Games.store gameID game })

/-- One entry of the listing: the map with keys "id", "title", "players".
`fmt.Sprint(len, "/", max)` puts no space next to a string operand. -/
def listItem (game : Game) : GoMap String String :=
  let item : GoMap String String := []
  let item := item.store "id" game.ID
  let item := item.store "title" game.Title
  item.store "players" (toString game.Players.length ++ "/" ++ toString game.MaxPlayers)

/-- `ListOfGames`: the slice `Games` of the result, in iteration order. -/
def Server.ListOfGames (s : Server) : List (GoMap String String) :=
  s.Games.map (fun e => listItem e.2)

/-- `CreateListOfGames`. -/
def Server.CreateListOfGames (s : Server) : Message :=
  Message.listOfGames s.ListOfGames

/-- The inner loop of `createUniqueNick`: is some profile's nick `nick`. -/
def nickInUse (lobby : GoMap ClientRef Profile) (nick : String) : Bool :=
  lobby.any (fun e => e.2.Nick == nick)

/-- The outer loop of `createUniqueNick`, entered with counter `i` and
candidate `nick`; one unit of fuel per candidate tested, `none` when the fuel
runs out.  `fmt.Sprintf("%s%v", nickIn, i)` is `nickIn` followed by the
decimal digits of `i`. -/
def createUniqueNickLoop (lobby : GoMap ClientRef Profile) (nickIn : String) :
    Nat → Nat → String → Option String
  | 0, _, _ => none
  | fuel + 1, i, nick =>
    if nickInUse lobby nick then
      createUniqueNickLoop lobby nickIn fuel (i + 1) (nickIn ++ toString (i + 1))
    else some nick

/-- `createUniqueNick`, run with one unit of fuel more than there are
profiles (`createUniqueNickLoop_fuel` shows more fuel changes nothing). -/
def Server.createUniqueNick (s : Server) (nickIn : String) : Option String :=
  createUniqueNickLoop s.Lobby nickIn (s.Lobby.length + 1) 1 nickIn

/-- `SetNick`; `none` only if the search for a nickname did not finish. -/
def Server.SetNick (s : Server) (client : ClientRef) (nick : String)
    (fresh : FreshProfile) : Option Server :=
  match s.createUniqueNick nick with
  | none => none
  | some nick =>
    let (profile, s) := s.GetOrCreateProfile client fresh
    let profile := { profile with Nick := nick }
    let s := { s with Lobby := s.Lobby.store client profile }
    some (s.send client (Message.secret profile.Secret profile.ID))

/-- `StartGame`; `none` is a nil dereference, in the owner scan or at
`s.Lobby[client].Nick` in the not-found branch. -/
def Server.StartGame (s : Server) (client : ClientRef) : Option Server :=
  match s.GameByClientOwner client with
  | none => none
  | some none =>
    match s.Lobby.lookup client with
    | none => none
    | some _ => some s
  | some (some (k, game)) =>
    some { s with Games := s.Games.store k (game.DoWork Task.startGame) }

/-- `Move`. -/
def Server.Move (s : Server) (message : MessageMove) (client : ClientRef) :
    Option Server :=
  match s.GameByClientPlaying client with
  | none => none
  | some none => some s
  | some (some (k, game)) =>
    some { s with Games := s.Games.store k (game.DoWork (Task.move client message)) }

/-- `ChangeSeat`: no found-check, so a miss calls `DoWork` on the nil
session. -/
def Server.ChangeSeat (s : Server) (client : ClientRef) (seat : Int) :
    Option Server :=
  match s.GameByClientPlaying client with
  | none => none
  | some none => none
  | some (some (k, game)) =>
    some { s with Games := s.Games.store k (game.DoWork (Task.changeSeat client seat)) }

/-- `Disconnect`; `none` is a nil dereference in the player scan. -/
def Server.Disconnect (s : Server) (client : ClientRef) : Option Server :=
  match s.GameByClientPlaying client with
  | none => none
  | some none => some { s with Lobby := s.Lobby.remove client }
  | some (some (k, game)) =>
    let game := game.RemoveClient client
    let games := s.Games.store k game
    let games :=
      if game.Players.length = 0 then
        (games.store k game.Stop).remove game.Stop.ID
      else games
    some { s with Games := games, Lobby := s.Lobby.remove client }

/-- The loop of `NotifyLobby` over the entries of the Lobby. -/
def notifyLoop (b : Message) : GoMap ClientRef Profile → Server → Option Server
  | [], s => some s
  | (client, _) :: rest, s =>
    match s.GameByClientPlaying client with
    | none => none
    | some none => notifyLoop b rest (s.send client b)
    | some (some _) => notifyLoop b rest s

/-- `NotifyLobby`. -/
def Server.NotifyLobby (s : Server) : Option Server :=
  notifyLoop s.CreateListOfGames s.Lobby s

/-! ## The move oracle of `chess-meta-move-rules.go` -/

/-- Modelled from the spec: the `Piece` struct (its declaration is not among
the sources).  "Piece: identity (pawn/rook/bishop/...), position, owning
team." -/
structure Piece where
  Identity : Nat
  Position : Int × Int
  Team : Int
deriving DecidableEq, Repr

/-- Modelled from the spec: the `MoveDescription` struct (its declaration is
not among the sources).  "A move description (from, to, intent)." -/
structure MoveDescription where
  From : Int × Int
  To : Int × Int
  Intent : String
deriving DecidableEq, Repr

/-- What a call of the oracle leaves behind: its three results, and the
objects behind the three pointers it was given as they are when it returns. -/
structure MoveOutcome where
  ok : Bool
  taken : Option Piece
  msg : String
  player : Player
  piece : Piece
  description : MoveDescription
deriving DecidableEq, Repr

/-- The declarations `IsMovePossible` uses that are not among the sources:
the three identity constants and the three rule functions.  A rule function
is given the player and the description by pointer, so it returns them as it
leaves them, after its three results. -/
structure MoveRules where
  identityPawn : Nat
  identityRook : Nat
  identityBishop : Nat
  isMovePossiblePawn :
    Player → MoveDescription → (Bool × Option Piece × String) × Player × MoveDescription
  isMovePossibleRook :
    Player → MoveDescription → (Bool × Option Piece × String) × Player × MoveDescription
  isMovePossibleBishop :
    Player → MoveDescription → (Bool × Option Piece × String) × Player × MoveDescription

/-- The outcome of delegating to one rule function; the piece is not passed
on, so it stays as it is. -/
def MoveOutcome.ofRule (piece : Piece)
    (r : (Bool × Option Piece × String) × Player × MoveDescription) : MoveOutcome :=
  { ok := r.1.1, taken := r.1.2.1, msg := r.1.2.2,
    player := r.2.1, piece := piece, description := r.2.2 }

/-- `IsMovePossible`: the chain of identity tests, then the fall-through that
sets `ok = false` and the message and leaves `taken` at its zero value. -/
def IsMovePossible (rules : MoveRules) (player : Player) (piece : Piece)
    (description : MoveDescription) : MoveOutcome :=
  if piece.Identity = rules.identityPawn then
    MoveOutcome.ofRule piece (rules.isMovePossiblePawn player description)
  else if piece.Identity = rules.identityRook then
    MoveOutcome.ofRule piece (rules.isMovePossibleRook player description)
  else if piece.Identity = rules.identityBishop then
    MoveOutcome.ofRule piece (rules.isMovePossibleBishop player description)
  else
    { ok := false, taken := none,
      msg := "Identity not implemented. Cannot check isMovePossible",
      player := player, piece := piece, description := description }

/-! ## Predicates used in the statements -/

/-- Every session is stored under its own id, and no key occurs twice in
`Games` or in the Lobby.  `CreateServer` establishes this and every operation
keeps it (`Server.WF_CreateGame` and the lemmas next to it). -/
def Server.WF (s : Server) : Prop :=
  s.Lobby.WF ∧ s.Games.WF ∧ ∀ e ∈ s.Games, e.2.ID = e.1

/-- Session `game` has a player whose profile belongs to `client`. -/
def Game.hasClient (game : Game) (client : ClientRef) : Bool :=
  game.Players.any (fun p => p.isClient client)

/-- The entries of `Games` in which `client` is a player. -/
def Server.sessionsOf (s : Server) (client : ClientRef) : GoMap String Game :=
  s.Games.filter (fun e => e.2.hasClient client)

/-- A client is a player of at most one session. -/
def Server.atMostOneSession (s : Server) : Prop :=
  ∀ client, (s.sessionsOf client).length ≤ 1

/-- The client whose profile is stored for `client` is a player of no
session: the player that `CreateGame(client)` or `JoinGame(id, profile)`
builds from `s.Lobby[client]` does not seat anyone who is already seated. -/
def Server.seatFree (s : Server) (client : ClientRef) : Prop :=
  ∀ p, s.Lobby.lookup client = some p → ∀ e ∈ s.Games, e.2.hasClient p.Client = false

/-- The nickname of the profile of `client`, if it has one. -/
def Server.nickOf (s : Server) (client : ClientRef) : Option String :=
  (s.Lobby.lookup client).map (fun p => p.Nick)

/-- The candidate `createUniqueNick` tests at counter `i`: the request itself at `i = 1`, then
the request followed by the decimal digits of `i`. -/
def candidate (nickIn : String) (i : Nat) : String :=
  if i = 1 then nickIn else nickIn ++ toString i

/-- Reading a decimal numeral back, most significant digit first. -/
def readDecimal (cs : List Char) (acc : Nat) : Nat :=
  cs.foldl (fun a c => 10 * a + (c.toNat - 48)) acc

/-- Every player of every session has a profile (no nil `Profile`). -/
def Server.profiled (s : Server) : Prop :=
  ∀ e ∈ s.Games, ∀ p ∈ e.2.Players, p.Profile ≠ none

/-- Every session's owner and players have a profile: what the two scans
`GameByClientOwner` and `GameByClientPlaying` dereference. -/
def Server.allProfiles (s : Server) : Prop :=
  ∀ e ∈ s.Games, e.2.Owner.Profile ≠ none ∧ ∀ p ∈ e.2.Players, p.Profile ≠ none

/-- Client `client` is a player of some session in `Games`. -/
def Server.isPlaying (s : Server) (client : ClientRef) : Bool :=
  s.Games.any (fun e => e.2.hasClient client)

/-- The clients that `NotifyLobby` writes to, in iteration order: the Lobby
clients that are a player of no session. -/
def Server.notified (s : Server) : List ClientRef :=
  (s.Lobby.filter (fun e => !s.isPlaying e.1)).map Prod.fst

/-! ## Concrete states used in the examples -/

/-- Fresh profile data used in the examples. -/
def freshA : FreshProfile := { Nick := "", Secret := "sa", ID := "pa" }

/-- A Lobby with one profile, nicknamed "Alice2", and no session. -/
def aliceLobby : Server :=
  { CreateServer "" false with
    Lobby := [(3, { Client := 3, Nick := "Alice2", Secret := "s3", ID := "p3" })] }

/-- Fresh session data used in the examples. -/
def freshG1 : FreshGame := { ID := "g1", Title := "first", MaxPlayers := 2 }

/-- A second set of fresh session data. -/
def freshG2 : FreshGame := { ID := "g2", Title := "second", MaxPlayers := 2 }

/-- The server after client 1 got a profile and created session "g1". -/
def soloServer : Server :=
  (((CreateServer "" false).GetOrCreateProfile 1 freshA).2.CreateGame 1 freshG1).2

/-- The session "g1" of `soloServer`. -/
def soloGame : Game :=
  (((CreateServer "" false).GetOrCreateProfile 1 freshA).2.CreateGame 1 freshG1).1

/-- The server after client 2 got a profile and joined session "g1", which is
then at its capacity of two players. -/
def duoServer : Server :=
  match (soloServer.GetOrCreateProfile 2 freshA).2.JoinGame "g1" (CreateProfile 2 freshA) with
  | some (_, s) => s
  | none => soloServer

/-- The session "g1" of `duoServer`. -/
def duoGame : Game :=
  (duoServer.Games.lookup "g1").getD soloGame

/-- The server `duoServer` after client 3 got a profile and created session
"g2": two sessions, with two players and with one player. -/
def twoGames : Server :=
  ((duoServer.GetOrCreateProfile 3 freshA).2.CreateGame 3 freshG2).2

/-- Rules with pawn 1, rook 2, bishop 3, whose rule functions refuse every
move and change nothing. -/
def sampleRules : MoveRules :=
  { identityPawn := 1, identityRook := 2, identityBishop := 3,
    isMovePossiblePawn := fun pl d => ((false, none, "no"), pl, d),
    isMovePossibleRook := fun pl d => ((false, none, "no"), pl, d),
    isMovePossibleBishop := fun pl d => ((false, none, "no"), pl, d) }

/-- A piece of identity 4, which is none of the three. -/
def knight : Piece := { Identity := 4, Position := (1, 0), Team := 1 }

/-- A player without a profile, on team 1. -/
def samplePlayer : Player := { Profile := none, Team := 1 }

/-- A move from (1, 0) to (2, 2). -/
def sampleMove : MoveDescription := { From := (1, 0), To := (2, 2), Intent := "move" }

/-- The server `soloServer` after client 2 got a profile: client 1 is seated
in "g1", client 2 is seated nowhere. -/
def soloPlusTwo : Server :=
  (soloServer.GetOrCreateProfile 2 freshA).2

/-- The server after client 1, who has no profile, created session "g1": the
owner and only player of "g1" has a nil profile. -/
def orphanServer : Server :=
  ((CreateServer "" false).CreateGame 1 freshG1).2

/-- The server `orphanServer` after client 2 got a profile. -/
def orphanPlusTwo : Server :=
  (orphanServer.GetOrCreateProfile 2 freshA).2

/-- The session "g2" of `twoGames`. -/
def duoGame2 : Game :=
  (twoGames.Games.lookup "g2").getD soloGame

/-! ## Lemmas on Go maps -/

namespace GoMap

variable {K V : Type} [DecidableEq K]

theorem lookup_store_self (m : GoMap K V) (k : K) (v : V) :
    (m.store k v).lookup k = some v := by
  induction m with
  | nil => simp [store, lookup]
  | cons e m ih =>
    obtain ⟨k', v'⟩ := e
    by_cases h : k' = k
    · simp [store, lookup, h]
    · simp [store, lookup, h, ih]

theorem lookup_store_ne (m : GoMap K V) (k k' : K) (v : V) (h : k' ≠ k) :
    (m.store k v).lookup k' = m.lookup k' := by
  induction m with
  | nil => simp [store, lookup, Ne.symm h]
  | cons e m ih =>
    obtain ⟨k0, v0⟩ := e
    by_cases h0 : k0 = k
    · subst h0
      simp [store, lookup, Ne.symm h]
    · by_cases h1 : k0 = k'
      · subst h1
        simp [store, lookup, h0]
      · simp [store, lookup, h0, h1, ih]

theorem mem_store_ne (m : GoMap K V) (k : K) (v : V) (e : K × V) (hk : e.1 ≠ k) :
    e ∈ m.store k v ↔ e ∈ m := by
  induction m with
  | nil =>
    simp only [store, List.mem_singleton, List.not_mem_nil, iff_false]
    intro h
    exact hk (by rw [h])
  | cons e0 m ih =>
    obtain ⟨k0, v0⟩ := e0
    by_cases h0 : k0 = k
    · subst h0
      simp only [store, if_true, List.mem_cons]
      constructor
      · rintro (h | h)
        · exact absurd (by rw [h]) hk
        · exact Or.inr h
      · rintro (h | h)
        · exact absurd (by rw [h]) hk
        · exact Or.inr h
    · simp only [store, h0, if_false, List.mem_cons, ih]

theorem mem_store (m : GoMap K V) (k : K) (v : V) (e : K × V)
    (h : e ∈ m.store k v) : e = (k, v) ∨ e ∈ m := by
  induction m with
  | nil => simp [store] at h; exact Or.inl h
  | cons e0 m ih =>
    obtain ⟨k0, v0⟩ := e0
    by_cases h0 : k0 = k
    · subst h0
      simp only [store, if_true, List.mem_cons] at h
      rcases h with h | h
      · exact Or.inl h
      · exact Or.inr (List.mem_cons_of_mem _ h)
    · simp only [store, h0, if_false, List.mem_cons] at h
      rcases h with h | h
      · subst h
        exact Or.inr (List.mem_cons_self _ _)
      · rcases ih h with h | h
        · exact Or.inl h
        · exact Or.inr (List.mem_cons_of_mem _ h)

theorem lookup_eq_none_iff (m : GoMap K V) (k : K) :
    m.lookup k = none ↔ ∀ e ∈ m, e.1 ≠ k := by
  induction m with
  | nil => simp [lookup]
  | cons e0 m ih =>
    obtain ⟨k0, v0⟩ := e0
    by_cases h0 : k0 = k
    · simp [lookup, h0]
    · simp [lookup, h0, ih]

theorem lookup_mem (m : GoMap K V) (k : K) (v : V) (h : m.lookup k = some v) :
    (k, v) ∈ m := by
  induction m with
  | nil => simp [lookup] at h
  | cons e0 m ih =>
    obtain ⟨k0, v0⟩ := e0
    by_cases h0 : k0 = k
    · subst h0
      simp [lookup] at h
      simp [h]
    · simp only [lookup, h0, if_false] at h
      exact List.mem_cons_of_mem _ (ih h)

theorem keys_store (m : GoMap K V) (k : K) (v : V) :
    (m.store k v).keys = if k ∈ m.keys then m.keys else m.keys ++ [k] := by
  induction m with
  | nil => simp [store, keys]
  | cons e0 m ih =>
    obtain ⟨k0, v0⟩ := e0
    by_cases h0 : k0 = k
    · subst h0
      simp [store, keys]
    · have h1 : ¬ k = k0 := fun h => h0 h.symm
      simp only [keys] at ih
      simp only [store, h0, if_false, keys, List.map_cons, List.mem_cons, h1, false_or, ih]
      split <;> simp

theorem length_store (m : GoMap K V) (k : K) (v : V) :
    (m.store k v).length = if k ∈ m.keys then m.length else m.length + 1 := by
  have h := congrArg List.length (keys_store m k v)
  simp only [keys, List.length_map] at h
  rw [h]
  by_cases hk : k ∈ List.map Prod.fst m
  · simp [keys, hk]
  · simp [keys, hk]

theorem WF_store (m : GoMap K V) (k : K) (v : V) (h : m.WF) : (m.store k v).WF := by
  have hk := keys_store m k v
  unfold WF at *
  unfold keys at hk
  rw [hk]
  split
  · exact h
  · rename_i hn
    rw [List.nodup_append]
    refine ⟨h, List.nodup_singleton _, ?_⟩
    intro a ha hb
    simp at hb
    subst hb
    exact hn ha

theorem mem_remove (m : GoMap K V) (k : K) (e : K × V) :
    e ∈ m.remove k ↔ e ∈ m ∧ e.1 ≠ k := by
  induction m with
  | nil => simp [remove]
  | cons e0 m ih =>
    obtain ⟨k0, v0⟩ := e0
    by_cases h0 : k0 = k
    · subst h0
      simp only [remove, if_true, ih, List.mem_cons]
      constructor
      · rintro ⟨h1, h2⟩
        exact ⟨Or.inr h1, h2⟩
      · rintro ⟨h1 | h1, h2⟩
        · exact absurd (by rw [h1]) h2
        · exact ⟨h1, h2⟩
    · simp only [remove, h0, if_false, List.mem_cons, ih]
      constructor
      · rintro (h1 | ⟨h1, h2⟩)
        · exact ⟨Or.inl h1, by rw [h1]; exact h0⟩
        · exact ⟨Or.inr h1, h2⟩
      · rintro ⟨h1 | h1, h2⟩
        · exact Or.inl h1
        · exact Or.inr ⟨h1, h2⟩

theorem remove_sublist (m : GoMap K V) (k : K) : List.Sublist (m.remove k) m := by
  induction m with
  | nil => simp [remove]
  | cons e0 m ih =>
    obtain ⟨k0, v0⟩ := e0
    by_cases h0 : k0 = k
    · simp only [remove, h0, if_true]
      exact List.Sublist.cons _ (by simpa [h0] using ih)
    · simp only [remove, h0, if_false]
      exact List.Sublist.cons₂ _ ih

theorem WF_remove (m : GoMap K V) (k : K) (h : m.WF) : (m.remove k).WF := by
  unfold WF at *
  exact (List.Sublist.map _ (remove_sublist m k)).nodup h

theorem lookup_remove_self (m : GoMap K V) (k : K) : (m.remove k).lookup k = none := by
  rw [lookup_eq_none_iff]
  intro e he
  exact ((mem_remove m k e).1 he).2

theorem lookup_remove_ne (m : GoMap K V) (k k' : K) (h : k' ≠ k) :
    (m.remove k).lookup k' = m.lookup k' := by
  induction m with
  | nil => simp [remove]
  | cons e0 m ih =>
    obtain ⟨k0, v0⟩ := e0
    by_cases h0 : k0 = k
    · subst h0
      simp [remove, lookup, ih, Ne.symm h]
    · by_cases h1 : k0 = k'
      · subst h1
        simp [remove, lookup, h0]
      · simp [remove, lookup, h0, h1, ih]

theorem store_store (m : GoMap K V) (k : K) (v v' : V) :
    (m.store k v).store k v' = m.store k v' := by
  induction m with
  | nil => simp [store]
  | cons e0 m ih =>
    obtain ⟨k0, v0⟩ := e0
    by_cases h0 : k0 = k
    · simp [store, h0]
    · simp [store, h0, ih]

theorem remove_store (m : GoMap K V) (k : K) (v : V) :
    (m.store k v).remove k = m.remove k := by
  induction m with
  | nil => simp [store, remove]
  | cons e0 m ih =>
    obtain ⟨k0, v0⟩ := e0
    by_cases h0 : k0 = k
    · simp [store, remove, h0]
    · simp [store, remove, h0, ih]

theorem remove_eq_self (m : GoMap K V) (k : K) (h : ∀ e ∈ m, e.1 ≠ k) :
    m.remove k = m := by
  induction m with
  | nil => simp [remove]
  | cons e0 m ih =>
    obtain ⟨k0, v0⟩ := e0
    have h0 : k0 ≠ k := h (k0, v0) (List.mem_cons_self _ _)
    have := ih (fun e he => h e (List.mem_cons_of_mem _ he))
    simp [remove, h0, this]

theorem length_remove (m : GoMap K V) (k : K) (hwf : m.WF) (hk : k ∈ m.keys) :
    (m.remove k).length + 1 = m.length := by
  induction m with
  | nil => simp [keys] at hk
  | cons e0 m ih =>
    obtain ⟨k0, v0⟩ := e0
    have hwf' : (k0 ∉ m.map Prod.fst) ∧ (m.map Prod.fst).Nodup := by
      simpa [WF] using hwf
    by_cases h0 : k0 = k
    · subst h0
      have hrest : remove m k0 = m := by
        apply remove_eq_self
        intro e he hek
        exact hwf'.1 (List.mem_map.2 ⟨e, he, hek⟩)
      simp [remove, hrest]
    · have hk' : k ∈ keys m := by
        simp only [keys, List.map_cons, List.mem_cons] at hk
        rcases hk with hk | hk
        · exact absurd hk.symm h0
        · exact hk
      have := ih hwf'.2 hk'
      simp [remove, h0, this]

omit [DecidableEq K] in
theorem mem_keys_of_mem (m : GoMap K V) (e : K × V) (h : e ∈ m) : e.1 ∈ m.keys :=
  List.mem_map.2 ⟨e, h, rfl⟩

theorem store_lookup (m : GoMap K V) (k : K) (v : V) (h : m.lookup k = some v) :
    m.store k v = m := by
  induction m with
  | nil => simp [lookup] at h
  | cons e0 m ih =>
    obtain ⟨k0, v0⟩ := e0
    by_cases h0 : k0 = k
    · subst h0
      simp only [lookup, if_true, Option.some.injEq] at h
      simp [store, h]
    · simp only [lookup, h0, if_false] at h
      simp [store, h0, ih h]

theorem store_fresh (m : GoMap K V) (k : K) (v : V) (h : m.lookup k = none) :
    m.store k v = m ++ [(k, v)] := by
  induction m with
  | nil => simp [store]
  | cons e0 m ih =>
    obtain ⟨k0, v0⟩ := e0
    by_cases h0 : k0 = k
    · simp [lookup, h0] at h
    · simp only [lookup, h0, if_false] at h
      simp [store, h0, ih h]

theorem lookup_of_mem (m : GoMap K V) (k : K) (v : V) (hwf : m.WF) (h : (k, v) ∈ m) :
    m.lookup k = some v := by
  induction m with
  | nil => simp at h
  | cons e0 m ih =>
    obtain ⟨k0, v0⟩ := e0
    have hwf' : (k0 ∉ m.map Prod.fst) ∧ (m.map Prod.fst).Nodup := by
      simpa [WF] using hwf
    rcases List.mem_cons.1 h with h | h
    · simp only [Prod.mk.injEq] at h
      simp [lookup, h.1, h.2]
    · have h0 : k0 ≠ k := by
        intro hk
        exact hwf'.1 (List.mem_map.2 ⟨(k, v), h, hk.symm⟩)
      simp only [lookup, h0, if_false]
      exact ih hwf'.2 h

theorem length_filter_store_le (P : K × V → Bool) (m : GoMap K V) (k : K) (v : V) :
    ((m.store k v).filter P).length ≤ (m.filter P).length + 1 := by
  induction m with
  | nil => cases hp : P (k, v) <;> simp [store, hp]
  | cons e0 m ih =>
    obtain ⟨k0, v0⟩ := e0
    by_cases h0 : k0 = k
    · subst h0
      have hle : (m.filter P).length ≤ (m.filter P).length + 1 + 1 := by omega
      cases hp : P (k0, v) <;> cases hq : P (k0, v0) <;>
        simp [store, List.filter_cons, hp, hq, hle]
    · cases hq : P (k0, v0) <;> simp [store, h0, List.filter_cons, hq] <;> omega

theorem length_filter_store_of_not (P : K × V → Bool) (m : GoMap K V) (k : K) (v : V)
    (h : P (k, v) = false) : ((m.store k v).filter P).length ≤ (m.filter P).length := by
  induction m with
  | nil => simp [store, h]
  | cons e0 m ih =>
    obtain ⟨k0, v0⟩ := e0
    by_cases h0 : k0 = k
    · subst h0
      cases hq : P (k0, v0) <;> simp [store, List.filter_cons, h, hq]
    · cases hq : P (k0, v0) <;> simp [store, h0, List.filter_cons, hq] <;> omega

theorem length_filter_store_mono (P : K × V → Bool) (m : GoMap K V) (k : K) (v v0 : V)
    (hl : m.lookup k = some v0) (hP : P (k, v) = true → P (k, v0) = true) :
    ((m.store k v).filter P).length ≤ (m.filter P).length := by
  induction m with
  | nil => simp [lookup] at hl
  | cons e0 m ih =>
    obtain ⟨k1, v1⟩ := e0
    by_cases h0 : k1 = k
    · subst h0
      simp only [lookup, if_true, Option.some.injEq] at hl
      subst hl
      cases hp : P (k1, v)
      · cases hq : P (k1, v1) <;> simp [store, List.filter_cons, hp, hq]
      · simp [store, List.filter_cons, hp, hP hp]
    · simp only [lookup, h0, if_false] at hl
      have := ih hl
      cases hq : P (k1, v1) <;> simp [store, h0, List.filter_cons, hq] <;> omega

theorem length_filter_remove_le (P : K × V → Bool) (m : GoMap K V) (k : K) :
    ((m.remove k).filter P).length ≤ (m.filter P).length :=
  ((remove_sublist m k).filter P).length_le

end GoMap

/-! ## Decimal rendering and the candidates of `createUniqueNick` -/

theorem digitChar_value (d : Nat) (h : d < 10) : (Nat.digitChar d).toNat - 48 = d := by
  interval_cases d <;> rfl

theorem readDecimal_toDigitsCore (fuel : Nat) :
    ∀ (n : Nat) (ds : List Char), n < fuel →
      readDecimal (Nat.toDigitsCore 10 fuel n ds) 0 = readDecimal ds n := by
  induction fuel with
  | zero => intro n ds h; omega
  | succ fuel ih =>
    intro n ds h
    have hd : (Nat.digitChar (n % 10)).toNat - 48 = n % 10 :=
      digitChar_value _ (Nat.mod_lt _ (by decide))
    by_cases h0 : n / 10 = 0
    · have hn : n % 10 = n := by omega
      simp only [Nat.toDigitsCore, h0, if_true, readDecimal, List.foldl_cons, Nat.mul_zero,
        Nat.zero_add, hd]
      rw [hn]
    · have hlt : n / 10 < fuel := by omega
      have := ih (n / 10) (Nat.digitChar (n % 10) :: ds) hlt
      simp only [Nat.toDigitsCore, h0, if_false, this]
      have hn : 10 * (n / 10) + n % 10 = n := Nat.div_add_mod n 10
      simp [readDecimal, hd, hn]

theorem readDecimal_toString (n : Nat) : readDecimal (toString n).data 0 = n := by
  have h := readDecimal_toDigitsCore (n + 1) n [] (Nat.lt_succ_self n)
  simpa [readDecimal, toString, Nat.repr, Nat.toDigits, List.asString] using h

theorem toString_injective (i j : Nat) (h : toString i = toString j) : i = j := by
  have := congrArg (fun s : String => readDecimal s.data 0) h
  simpa [readDecimal_toString] using this

theorem toString_ne_empty (i : Nat) (h : 0 < i) : toString i ≠ "" := by
  intro he
  have := readDecimal_toString i
  rw [he] at this
  simp [readDecimal] at this
  omega

theorem append_cancel (a b c : String) (h : a ++ b = a ++ c) : b = c := by
  have := congrArg String.data h
  simp at this
  exact String.ext this

theorem append_eq_self (a b : String) (h : a ++ b = a) : b = "" := by
  have := append_cancel a b "" (by simpa using h)
  exact this

theorem candidate_injective (nickIn : String) (i j : Nat) (hi : 1 ≤ i) (hj : 1 ≤ j)
    (h : candidate nickIn i = candidate nickIn j) : i = j := by
  unfold candidate at h
  by_cases h1 : i = 1 <;> by_cases h2 : j = 1
  · omega
  · simp only [h1, h2, if_true, if_false] at h
    exact absurd (append_eq_self _ _ h.symm) (toString_ne_empty j (by omega))
  · simp only [h1, h2, if_true, if_false] at h
    exact absurd (append_eq_self _ _ h) (toString_ne_empty i (by omega))
  · simp only [h1, h2, if_false] at h
    exact toString_injective i j (append_cancel _ _ _ h)

theorem nickInUse_iff (lobby : GoMap ClientRef Profile) (nick : String) :
    nickInUse lobby nick = true ↔ nick ∈ lobby.map (fun e => e.2.Nick) := by
  unfold nickInUse
  rw [List.any_eq_true, List.mem_map]
  constructor
  · rintro ⟨e, he, h⟩
    exact ⟨e, he, by simpa using h⟩
  · rintro ⟨e, he, h⟩
    exact ⟨e, he, by simpa using h⟩

/-- The loop started at counter `i ≥ 1` on its own candidate fails to answer
within `fuel` tests only if the `fuel` candidates from `i` on are all taken. -/
theorem createUniqueNickLoop_none (lobby : GoMap ClientRef Profile) (nickIn : String)
    (fuel : Nat) : ∀ i, 1 ≤ i →
      createUniqueNickLoop lobby nickIn fuel i (candidate nickIn i) = none →
      ∀ j, i ≤ j → j < i + fuel → nickInUse lobby (candidate nickIn j) = true := by
  induction fuel with
  | zero => intro i _ _ j h1 h2; omega
  | succ fuel ih =>
    intro i hi h j h1 h2
    unfold createUniqueNickLoop at h
    by_cases hu : nickInUse lobby (candidate nickIn i) = true
    · simp only [hu, if_true] at h
      have hc : nickIn ++ toString (i + 1) = candidate nickIn (i + 1) := by
        have hne : ¬ (i + 1 = 1) := by omega
        simp [candidate, hne]
      rw [hc] at h
      by_cases hj : j = i
      · subst hj; exact hu
      · exact ih (i + 1) (by omega) h j (by omega) (by omega)
    · simp [hu] at h

/-- The answer of the loop: the first free candidate from counter `i` on. -/
theorem createUniqueNickLoop_some (lobby : GoMap ClientRef Profile) (nickIn : String)
    (fuel : Nat) : ∀ i r, 1 ≤ i →
      createUniqueNickLoop lobby nickIn fuel i (candidate nickIn i) = some r →
      ∃ j, i ≤ j ∧ j < i + fuel ∧ r = candidate nickIn j ∧
        nickInUse lobby r = false ∧
        ∀ t, i ≤ t → t < j → nickInUse lobby (candidate nickIn t) = true := by
  induction fuel with
  | zero => intro i r _ h; simp [createUniqueNickLoop] at h
  | succ fuel ih =>
    intro i r hi h
    unfold createUniqueNickLoop at h
    by_cases hu : nickInUse lobby (candidate nickIn i) = true
    · simp only [hu, if_true] at h
      have hc : nickIn ++ toString (i + 1) = candidate nickIn (i + 1) := by
        have hne : ¬ (i + 1 = 1) := by omega
        simp [candidate, hne]
      rw [hc] at h
      obtain ⟨j, h1, h2, h3, h4, h5⟩ := ih (i + 1) r (by omega) h
      refine ⟨j, by omega, by omega, h3, h4, ?_⟩
      intro t ht1 ht2
      by_cases ht : t = i
      · subst ht; exact hu
      · exact h5 t (by omega) ht2
    · simp only [Bool.not_eq_true] at hu
      simp only [hu, Bool.false_eq_true, if_false, Option.some.injEq] at h
      subst h
      exact ⟨i, le_refl _, by omega, rfl, hu, fun t h1 h2 => by omega⟩

/-- Pigeonhole: not all of `m + 1` consecutive candidates can be taken in a
Lobby of `m` profiles. -/
theorem candidates_not_all_taken (lobby : GoMap ClientRef Profile) (nickIn : String)
    (h : ∀ j, 1 ≤ j → j < 1 + (lobby.length + 1) →
      nickInUse lobby (candidate nickIn j) = true) : False := by
  let cs := (List.range (lobby.length + 1)).map (fun t => candidate nickIn (t + 1))
  have hnd : cs.Nodup := by
    refine List.Nodup.map_on ?_ (List.nodup_range _)
    intro a _ b _ hab
    have := candidate_injective nickIn (a + 1) (b + 1) (by omega) (by omega) hab
    omega
  have hsub : cs ⊆ lobby.map (fun e => e.2.Nick) := by
    intro x hx
    simp only [cs, List.mem_map, List.mem_range] at hx
    obtain ⟨t, ht, rfl⟩ := hx
    exact (nickInUse_iff lobby _).1 (h (t + 1) (by omega) (by omega))
  have hlen := (List.subperm_of_subset hnd hsub).length_le
  simp [cs] at hlen

/-- The search of `createUniqueNick` ends within `m + 1` tests. -/
theorem createUniqueNick_isSome (s : Server) (nickIn : String) :
    ∃ r, s.createUniqueNick nickIn = some r := by
  unfold Server.createUniqueNick
  cases hr : createUniqueNickLoop s.Lobby nickIn (s.Lobby.length + 1) 1 nickIn with
  | some r => exact ⟨r, rfl⟩
  | none =>
    exfalso
    have hc : nickIn = candidate nickIn 1 := by simp [candidate]
    rw [hc] at hr
    exact candidates_not_all_taken s.Lobby nickIn
      (createUniqueNickLoop_none s.Lobby nickIn _ 1 (le_refl _) hr)

/-- More fuel does not change an answer already reached. -/
theorem createUniqueNickLoop_fuel (lobby : GoMap ClientRef Profile) (nickIn : String)
    (fuel extra : Nat) : ∀ i nick r,
      createUniqueNickLoop lobby nickIn fuel i nick = some r →
      createUniqueNickLoop lobby nickIn (fuel + extra) i nick = some r := by
  induction fuel with
  | zero => intro i nick r h; simp [createUniqueNickLoop] at h
  | succ fuel ih =>
    intro i nick r h
    have he : fuel + 1 + extra = (fuel + extra) + 1 := by omega
    rw [he]
    unfold createUniqueNickLoop at h ⊢
    by_cases hu : nickInUse lobby nick = true
    · simp only [hu, if_true] at h ⊢
      exact ih _ _ _ h
    · simp only [Bool.not_eq_true] at hu
      simp only [hu, Bool.false_eq_true, if_false] at h ⊢
      exact h

/-! ## SetNick -/

theorem GetOrCreateProfile_lookup (s : Server) (client : ClientRef) (fresh : FreshProfile) :
    (s.GetOrCreateProfile client fresh).2.Lobby.lookup client
      = some (s.GetOrCreateProfile client fresh).1 := by
  unfold Server.GetOrCreateProfile
  cases h : s.Lobby.lookup client with
  | some p => simp [h]
  | none => simp [GoMap.lookup_store_self]

theorem GetOrCreateProfile_mem_ne (s : Server) (client : ClientRef) (fresh : FreshProfile)
    (e : ClientRef × Profile) (he : e.1 ≠ client) :
    e ∈ (s.GetOrCreateProfile client fresh).2.Lobby ↔ e ∈ s.Lobby := by
  unfold Server.GetOrCreateProfile
  cases h : s.Lobby.lookup client with
  | some p => simp
  | none => simp [GoMap.mem_store_ne _ _ _ _ he]

theorem GetOrCreateProfile_lookup_ne (s : Server) (client c : ClientRef)
    (fresh : FreshProfile) (hc : c ≠ client) :
    (s.GetOrCreateProfile client fresh).2.Lobby.lookup c = s.Lobby.lookup c := by
  unfold Server.GetOrCreateProfile
  cases h : s.Lobby.lookup client with
  | some p => simp
  | none => simp [GoMap.lookup_store_ne _ _ _ _ hc]

/-- The state `SetNick` leaves, once the nickname search has answered `r`:
the Lobby with the client's profile, nicknamed `r`, stored under its key. -/
theorem SetNick_of_nick (s : Server) (client : ClientRef) (n r : String)
    (fresh : FreshProfile) (h : s.createUniqueNick n = some r) :
    ∃ s' p, s.SetNick client n fresh = some s' ∧
      s'.Lobby = s.Lobby.store client p ∧ p.Nick = r ∧
      s'.Games = s.Games ∧ s'.canStartBeforeFull = s.canStartBeforeFull := by
  unfold Server.SetNick
  simp only [h]
  refine ⟨_, { (s.GetOrCreateProfile client fresh).1 with Nick := r }, rfl, ?_, rfl, ?_, ?_⟩
  · unfold Server.GetOrCreateProfile
    cases s.Lobby.lookup client <;> simp [Server.send, GoMap.store_store]
  · unfold Server.GetOrCreateProfile
    cases s.Lobby.lookup client <;> simp [Server.send]
  · unfold Server.GetOrCreateProfile
    cases s.Lobby.lookup client <;> simp [Server.send]

/-- A free first candidate is the answer of `createUniqueNick`. -/
theorem createUniqueNick_of_free (s : Server) (n : String)
    (h : nickInUse s.Lobby n = false) : s.createUniqueNick n = some n := by
  simp [Server.createUniqueNick, createUniqueNickLoop, h]

/-- A taken first candidate and a free second one: the answer is the request
followed by 2. -/
theorem createUniqueNick_second (s : Server) (n : String)
    (h1 : nickInUse s.Lobby n = true) (h2 : nickInUse s.Lobby (n ++ "2") = false) :
    s.createUniqueNick n = some (n ++ "2") := by
  have hlen : ∃ k, s.Lobby.length = k + 1 := by
    cases hl : s.Lobby with
    | nil => rw [hl] at h1; simp [nickInUse] at h1
    | cons e m => exact ⟨m.length, rfl⟩
  obtain ⟨k, hk⟩ := hlen
  have h2' : nickInUse s.Lobby (n ++ toString 2) = false := h2
  simp [Server.createUniqueNick, createUniqueNickLoop, hk, h1, h2']
  rfl

theorem playersScan_true (client : ClientRef) (ps : List Player)
    (h : playersScan client ps = some true) : ∃ p ∈ ps, p.isClient client = true := by
  induction ps with
  | nil => simp [playersScan] at h
  | cons p ps ih =>
    unfold playersScan at h
    cases hp : p.Profile with
    | none => simp [hp] at h
    | some pr =>
      simp only [hp] at h
      by_cases hc : pr.Client = client
      · exact ⟨p, List.mem_cons_self _ _, by simp [Player.isClient, hp, hc]⟩
      · simp only [hc, if_false] at h
        obtain ⟨q, hq, hq2⟩ := ih h
        exact ⟨q, List.mem_cons_of_mem _ hq, hq2⟩

theorem playersScan_false (client : ClientRef) (ps : List Player)
    (h : playersScan client ps = some false) : ∀ p ∈ ps, p.isClient client = false := by
  induction ps with
  | nil => simp
  | cons p ps ih =>
    unfold playersScan at h
    cases hp : p.Profile with
    | none => simp [hp] at h
    | some pr =>
      simp only [hp] at h
      by_cases hc : pr.Client = client
      · simp [hc] at h
      · simp only [hc, if_false] at h
        intro q hq
        rcases List.mem_cons.1 hq with hq | hq
        · subst hq
          simp [Player.isClient, hp, hc]
        · exact ih h q hq

theorem gamesScanPlaying_found (client : ClientRef) (games : GoMap String Game)
    (k : String) (game : Game)
    (h : gamesScanPlaying client games = some (some (k, game))) :
    (k, game) ∈ games ∧ playersScan client game.Players = some true := by
  induction games with
  | nil => simp [gamesScanPlaying] at h
  | cons e rest ih =>
    obtain ⟨k0, g0⟩ := e
    unfold gamesScanPlaying at h
    cases hs : playersScan client g0.Players with
    | none => simp [hs] at h
    | some b =>
      cases b with
      | true =>
        simp only [hs, Option.some.injEq, Prod.mk.injEq] at h
        obtain ⟨rfl, rfl⟩ := h
        exact ⟨List.mem_cons_self _ _, hs⟩
      | false =>
        simp only [hs] at h
        exact ⟨List.mem_cons_of_mem _ (ih h).1, (ih h).2⟩

theorem gamesScanPlaying_missing (client : ClientRef) (games : GoMap String Game)
    (h : gamesScanPlaying client games = some none) :
    ∀ e ∈ games, e.2.hasClient client = false := by
  induction games with
  | nil => simp
  | cons e rest ih =>
    obtain ⟨k0, g0⟩ := e
    unfold gamesScanPlaying at h
    cases hs : playersScan client g0.Players with
    | none => simp [hs] at h
    | some b =>
      cases b with
      | true => simp [hs] at h
      | false =>
        simp only [hs] at h
        intro e he
        rcases List.mem_cons.1 he with he | he
        · subst he
          have := playersScan_false client _ hs
          simpa [Game.hasClient] using this
        · exact ih h e he

/-- C2: when the session found for `c` has `c` as its only player,
`Disconnect(c)` completes, removes that session from `Games` (the entry under
its key is gone, every other entry stays, and there is exactly one session
fewer), and `c` is no longer a key of the Lobby. -/
theorem Disconnect_last_player (s : Server) (c : ClientRef) (k : String) (game : Game)
    (hwf : s.WF) (hfound : s.GameByClientPlaying c = some (some (k, game)))
    (honly : game.Players.length = 1) :
    ∃ s', s.Disconnect c = some s' ∧
      s'.Games = s.Games.remove k ∧ s'.Games.lookup k = none ∧
      s'.Games.length + 1 = s.Games.length ∧
      s'.Lobby.lookup c = none ∧ c ∉ s'.Lobby.keys := by
  obtain ⟨hmem, hscan⟩ := gamesScanPlaying_found c s.Games k game hfound
  obtain ⟨p, hp, hpc⟩ := playersScan_true c _ hscan
  have hplayers : game.Players = [p] := by
    match hg : game.Players, honly, hp with
    | [q], _, hp' =>
      rw [hg] at hp
      simp at hp
      rw [hp]
  have hid : game.ID = k := hwf.2.2 (k, game) hmem
  have hrem : (game.RemoveClient c).Players = [] := by
    simp [Game.RemoveClient, hplayers, hpc]
  have hgames : (s.Disconnect c).map (fun t => t.Games) = some (s.Games.remove k) := by
    unfold Server.Disconnect
    simp only [hfound, hrem, List.length_nil, if_true, Option.map_some', Option.some.injEq]
    have : (game.RemoveClient c).Stop.ID = k := by simp [Game.Stop, Game.RemoveClient, hid]
    rw [this, GoMap.remove_store, GoMap.remove_store]
  have hlobby : (s.Disconnect c).map (fun t => t.Lobby) = some (s.Lobby.remove c) := by
    unfold Server.Disconnect
    simp only [hfound, Option.map_some']
  cases hd : s.Disconnect c with
  | none => simp [hd] at hgames
  | some s' =>
    simp only [hd, Option.map_some', Option.some.injEq] at hgames hlobby
    refine ⟨s', rfl, hgames, ?_, ?_, ?_, ?_⟩
    · rw [hgames]; exact GoMap.lookup_remove_self _ _
    · rw [hgames]
      exact GoMap.length_remove _ _ hwf.2.1 (GoMap.mem_keys_of_mem _ _ hmem)
    · rw [hlobby]; exact GoMap.lookup_remove_self _ _
    · rw [hlobby]
      intro hin
      obtain ⟨e, he, hek⟩ := List.mem_map.1 hin
      exact ((GoMap.mem_remove _ _ _).1 he).2 hek

theorem Disconnect_last_player_witness :
    soloServer.WF ∧ soloServer.GameByClientPlaying 1 = some (some ("g1", soloGame)) ∧
    soloGame.Players.length = 1 ∧
    ∃ s', soloServer.Disconnect 1 = some s' ∧
      s'.Games = soloServer.Games.remove "g1" ∧ s'.Games.lookup "g1" = none ∧
      s'.Games.length + 1 = soloServer.Games.length ∧
      s'.Lobby.lookup 1 = none ∧ 1 ∉ s'.Lobby.keys :=
  have h1 : soloServer.WF := by
    unfold Server.WF GoMap.WF
    decide
  ⟨h1, by decide, by decide,
    Disconnect_last_player soloServer 1 "g1" soloGame h1 (by decide) (by decide)⟩

/-! ## JoinGame on a full session -/

theorem Game.JoinGame_false (game : Game) (player : Player)
    (h : (game.JoinGame player).1 = false) : (game.JoinGame player).2 = game := by
  unfold Game.JoinGame at h ⊢
  by_cases h1 : game.maxPlayers ≤ game.Players.length
  · simp [h1]
  · by_cases h2 : (game.started && !game.CanStartBeforeFull) = true
    · simp [h1, h2]
    · simp [h1, h2] at h

theorem Game.JoinGame_atCapacity (game : Game) (player : Player)
    (h : game.MaxPlayers ≤ game.Players.length) : game.JoinGame player = (false, game) := by
  unfold Game.MaxPlayers at h
  simp [Game.JoinGame, h]

/-- C3: when the session stored under `sessionID` is at capacity,
`Server.JoinGame` completes and returns that very session (same player list,
same player count, same task queue); `Games` and the Lobby are as before, and
the only effect is one error message "Could not join game" / "Server is full"
written on the joining client's send channel. -/
theorem JoinGame_full (s : Server) (sessionID : String) (p : Profile) (game : Game)
    (hg : s.Games.lookup sessionID = some game)
    (hfull : game.MaxPlayers ≤ game.Players.length) :
    ∃ s', s.JoinGame sessionID p = some (game, s') ∧
      s'.Games = s.Games ∧ s'.Lobby = s.Lobby ∧
      s'.Games.lookup sessionID = some game ∧
      s'.sent = s.sent ++ [(p.Client, Message.error "Could not join game" "Server is full")] := by
  have hstore : s.Games.store sessionID game = s.Games := GoMap.store_lookup _ _ _ hg
  refine ⟨s.send p.Client (Message.error "Could not join game" "Server is full"),
    ?_, rfl, rfl, hg, rfl⟩
  unfold Server.JoinGame
  simp only [hg, Game.JoinGame_atCapacity game _ hfull, hstore]

theorem JoinGame_full_witness :
    duoServer.Games.lookup "g1" = some duoGame ∧
    duoGame.MaxPlayers ≤ duoGame.Players.length ∧
    ∃ s', duoServer.JoinGame "g1" (CreateProfile 3 freshA) = some (duoGame, s') ∧
      s'.Games = duoServer.Games ∧ s'.Lobby = duoServer.Lobby ∧
      s'.Games.lookup "g1" = some duoGame ∧
      s'.sent = duoServer.sent ++
        [((CreateProfile 3 freshA).Client,
          Message.error "Could not join game" "Server is full")] :=
  ⟨by decide, by decide,
    JoinGame_full duoServer "g1" (CreateProfile 3 freshA) duoGame (by decide) (by decide)⟩

/-! ## ListOfGames -/

theorem listItem_id (game : Game) : (listItem game).lookup "id" = some game.ID := by
  simp [listItem, GoMap.store, GoMap.lookup]

theorem listItem_title (game : Game) : (listItem game).lookup "title" = some game.Title := by
  simp [listItem, GoMap.store, GoMap.lookup]

theorem listItem_players (game : Game) :
    (listItem game).lookup "players"
      = some (toString game.Players.length ++ "/" ++ toString game.MaxPlayers) := by
  simp [listItem, GoMap.store, GoMap.lookup]

theorem listItem_keys (game : Game) : (listItem game).keys = ["id", "title", "players"] := by
  simp [listItem, GoMap.store, GoMap.keys]

/-- In a list whose images under `f` are pairwise different, exactly one
element has the image of a given member. -/
theorem length_filter_eq_one {α β : Type} [DecidableEq β] (f : α → β) (l : List α)
    (hnd : (l.map f).Nodup) (x : α) (hx : x ∈ l) :
    (l.filter (fun y => decide (f y = f x))).length = 1 := by
  induction l with
  | nil => simp at hx
  | cons a t ih =>
    have hnd' : f a ∉ t.map f ∧ (t.map f).Nodup := by simpa using hnd
    by_cases hfa : f a = f x
    · have hnone : t.filter (fun y => decide (f y = f x)) = [] := by
        rw [List.filter_eq_nil_iff]
        intro y hy
        simp only [decide_eq_true_eq]
        intro hfy
        exact hnd'.1 (List.mem_map.2 ⟨y, hy, by rw [hfy, hfa]⟩)
      simp [List.filter_cons, hfa, hnone]
    · have hxt : x ∈ t := by
        rcases List.mem_cons.1 hx with h | h
        · exact absurd (by rw [h]) hfa
        · exact h
      simp [List.filter_cons, hfa, ih hnd'.2 hxt]

/-- C4: `ListOfGames` has as many entries as there are sessions; the ids of
its entries are the keys of `Games`, each once and in iteration order, so no
session id is repeated or missing; and the one entry for a session has
exactly the keys "id", "title", "players", with the session id, the session
title, and the decimal player count, "/", the decimal capacity. -/
theorem ListOfGames_entries (s : Server) (hwf : s.WF) :
    s.ListOfGames.length = s.Games.length ∧
    s.ListOfGames.map (fun it => it.lookup "id") = s.Games.keys.map some ∧
    (s.ListOfGames.map (fun it => it.lookup "id")).Nodup ∧
    ∀ k game, s.Games.lookup k = some game →
      ∃ it ∈ s.ListOfGames,
        it.keys = ["id", "title", "players"] ∧
        it.lookup "id" = some k ∧ it.lookup "title" = some game.Title ∧
        it.lookup "players"
          = some (toString game.Players.length ++ "/" ++ toString game.MaxPlayers) ∧
        (s.ListOfGames.filter (fun it' => decide (it'.lookup "id" = some k))).length = 1 := by
  have hids : s.ListOfGames.map (fun it => it.lookup "id") = s.Games.keys.map some := by
    unfold Server.ListOfGames GoMap.keys
    rw [List.map_map, List.map_map]
    apply List.map_congr_left
    intro e he
    simp only [Function.comp, listItem_id]
    rw [hwf.2.2 e he]
  have hnd : (s.ListOfGames.map (fun it => it.lookup "id")).Nodup := by
    rw [hids]
    exact List.Nodup.map (Option.some_injective _) hwf.2.1
  refine ⟨by simp [Server.ListOfGames], hids, hnd, ?_⟩
  intro k game hk
  have hmem : (k, game) ∈ s.Games := GoMap.lookup_mem _ _ _ hk
  have hid : game.ID = k := hwf.2.2 _ hmem
  have hin : listItem game ∈ s.ListOfGames := List.mem_map.2 ⟨(k, game), hmem, rfl⟩
  refine ⟨listItem game, hin, listItem_keys game, ?_, listItem_title game,
    listItem_players game, ?_⟩
  · rw [listItem_id, hid]
  · have h1 := length_filter_eq_one (fun it : GoMap String String => it.lookup "id")
      s.ListOfGames hnd (listItem game) hin
    simp only [listItem_id, hid] at h1
    exact h1

theorem ListOfGames_entries_witness :
    twoGames.WF ∧
    twoGames.ListOfGames.length = twoGames.Games.length ∧
    (twoGames.ListOfGames.map (fun it => it.lookup "id")).Nodup ∧
    twoGames.ListOfGames =
      [[("id", "g1"), ("title", "first"), ("players", "2/2")],
       [("id", "g2"), ("title", "second"), ("players", "1/2")]] :=
  have h : twoGames.WF := by
    unfold Server.WF GoMap.WF
    decide
  ⟨h, (ListOfGames_entries twoGames h).1, (ListOfGames_entries twoGames h).2.2.1, by decide⟩

/-! ## The move oracle -/

/-- C5: for a piece whose identity is none of pawn, rook, bishop,
`IsMovePossible` returns `ok = false`, no captured piece and the message
"Identity not implemented. Cannot check isMovePossible", whatever the rule
functions are, and leaves the player, the piece and the move description as
they were. -/
theorem IsMovePossible_unknown_identity (rules : MoveRules) (player : Player)
    (piece : Piece) (description : MoveDescription)
    (hp : piece.Identity ≠ rules.identityPawn) (hr : piece.Identity ≠ rules.identityRook)
    (hb : piece.Identity ≠ rules.identityBishop) :
    IsMovePossible rules player piece description =
      { ok := false, taken := none,
        msg := "Identity not implemented. Cannot check isMovePossible",
        player := player, piece := piece, description := description } := by
  simp [IsMovePossible, hp, hr, hb]

theorem IsMovePossible_unknown_identity_witness :
    knight.Identity ≠ sampleRules.identityPawn ∧ knight.Identity ≠ sampleRules.identityRook ∧
    knight.Identity ≠ sampleRules.identityBishop ∧
    IsMovePossible sampleRules samplePlayer knight sampleMove =
      { ok := false, taken := none,
        msg := "Identity not implemented. Cannot check isMovePossible",
        player := samplePlayer, piece := knight, description := sampleMove } :=
  ⟨by decide, by decide, by decide,
    IsMovePossible_unknown_identity sampleRules samplePlayer knight sampleMove
      (by decide) (by decide) (by decide)⟩

/-! ## StartGame and JoinGame on a miss -/

/-- C7 (failing input): on the server `CreateServer` returns, where client 1
owns no session and has no profile, `StartGame` does not complete: the
not-found branch evaluates `s.Lobby[client].Nick` on a nil profile. -/
theorem StartGame_no_profile_faults :
    (CreateServer "" false).GameByClientOwner 1 = some none ∧
    (CreateServer "" false).Lobby.lookup 1 = none ∧
    (CreateServer "" false).StartGame 1 = none := by
  decide

/-- The not-found branch of `StartGame` panics exactly for a client without a
profile; with a profile the call returns and changes nothing. -/
theorem StartGame_not_owner (s : Server) (client : ClientRef)
    (h : s.GameByClientOwner client = some none) :
    (s.Lobby.lookup client = none → s.StartGame client = none) ∧
    (∀ p, s.Lobby.lookup client = some p → s.StartGame client = some s) := by
  constructor
  · intro hl
    simp [Server.StartGame, h, hl]
  · intro p hl
    simp [Server.StartGame, h, hl]

/-- C9 (failing input): on the server where client 1 has a profile and no
session exists, `JoinGame("nope", profile)` does not complete: the session
looked up is nil and the session's `JoinGame` is called on it. -/
theorem JoinGame_unknown_session_faults :
    ((CreateServer "" false).GetOrCreateProfile 1 freshA).2.Games.lookup "nope" = none ∧
    ((CreateServer "" false).GetOrCreateProfile 1 freshA).2.JoinGame "nope"
      (CreateProfile 1 freshA) = none := by
  decide

/-- Every session id that is not a key of `Games` makes `Server.JoinGame`
fault. -/
theorem JoinGame_unknown_session (s : Server) (sessionID : String) (p : Profile)
    (h : s.Games.lookup sessionID = none) : s.JoinGame sessionID p = none := by
  simp [Server.JoinGame, h]

/-! ## Well-formedness is kept -/

theorem Server.WF_CreateServer (address : String) (b : Bool) : (CreateServer address b).WF := by
  simp [Server.WF, GoMap.WF, CreateServer]

theorem Server.WF_storeGame (s : Server) (k : String) (game : Game) (hwf : s.WF)
    (hid : game.ID = k) : ({ s with Games := s.Games.store k game } : Server).WF := by
  refine ⟨hwf.1, GoMap.WF_store _ _ _ hwf.2.1, ?_⟩
  intro e he
  rcases GoMap.mem_store _ _ _ _ he with h | h
  · rw [h]; exact hid
  · exact hwf.2.2 e h

theorem Server.WF_GetOrCreateProfile (s : Server) (client : ClientRef) (fresh : FreshProfile)
    (hwf : s.WF) : (s.GetOrCreateProfile client fresh).2.WF := by
  unfold Server.GetOrCreateProfile
  cases s.Lobby.lookup client with
  | some p => exact hwf
  | none => exact ⟨GoMap.WF_store _ _ _ hwf.1, hwf.2.1, hwf.2.2⟩

theorem Server.WF_SetNick (s s' : Server) (client : ClientRef) (n : String)
    (fresh : FreshProfile) (hwf : s.WF) (h : s.SetNick client n fresh = some s') : s'.WF := by
  obtain ⟨r, hr⟩ := createUniqueNick_isSome s n
  obtain ⟨s1, p, hs, hl, _, hg, _⟩ := SetNick_of_nick s client n r fresh hr
  rw [hs] at h
  simp only [Option.some.injEq] at h
  subst h
  refine ⟨?_, ?_, ?_⟩
  · rw [hl]; exact GoMap.WF_store _ _ _ hwf.1
  · rw [hg]; exact hwf.2.1
  · rw [hg]; exact hwf.2.2

theorem Server.CreateGame_games (s : Server) (client : ClientRef) (fresh : FreshGame) :
    (s.CreateGame client fresh).2.Games
      = s.Games.store fresh.ID (s.CreateGame client fresh).1 ∧
    (s.CreateGame client fresh).1.ID = fresh.ID ∧
    (s.CreateGame client fresh).1.Players
      = [{ Profile := s.Lobby.lookup client, Team := 1 }] ∧
    (s.CreateGame client fresh).2.Lobby = s.Lobby := by
  simp [Server.CreateGame, Chess.CreateGame, Game.DoWork, GoMap.store_store]

theorem Server.WF_CreateGame (s : Server) (client : ClientRef) (fresh : FreshGame)
    (hwf : s.WF) : (s.CreateGame client fresh).2.WF := by
  obtain ⟨hg, hid, _, hl⟩ := Server.CreateGame_games s client fresh
  refine ⟨by rw [hl]; exact hwf.1, by rw [hg]; exact GoMap.WF_store _ _ _ hwf.2.1, ?_⟩
  rw [hg]
  intro e he
  rcases GoMap.mem_store _ _ _ _ he with h | h
  · rw [h]; exact hid
  · exact hwf.2.2 e h

/-- What a completed `Server.JoinGame` did: the session stored under the id
is either as before (refusal, with one error reply) or has the new player
appended and one task enqueued. -/
theorem Server.JoinGame_some (s s' : Server) (sessionID : String) (p : Profile) (g : Game)
    (h : s.JoinGame sessionID p = some (g, s')) :
    ∃ g0, s.Games.lookup sessionID = some g0 ∧ s'.Games = s.Games.store sessionID g ∧
      s'.Lobby = s.Lobby ∧ g.ID = g0.ID ∧
      ((g = g0 ∧ s'.sent = s.sent ++
          [(p.Client, Message.error "Could not join game" "Server is full")]) ∨
       (g.Players = g0.Players ++ [{ Profile := s.Lobby.lookup p.Client, Team := 0 }] ∧
        g.todo = g0.todo ++ [Task.announceShare Message.viewBoard] ∧ s'.sent = s.sent)) := by
  unfold Server.JoinGame at h
  cases hl : s.Games.lookup sessionID with
  | none => simp [hl] at h
  | some g0 =>
    simp only [hl] at h
    refine ⟨g0, rfl, ?_⟩
    cases hj : g0.JoinGame { Profile := s.Lobby.lookup p.Client, Team := 0 } with
    | mk ok g1 =>
      cases ok with
      | false =>
        have h1 : g1 = g0 := by
          have := Game.JoinGame_false g0 _ (by rw [hj])
          rw [hj] at this
          exact this
        simp only [hj, Option.some.injEq, Prod.mk.injEq] at h
        obtain ⟨rfl, rfl⟩ := h
        subst h1
        exact ⟨rfl, rfl, rfl, Or.inl ⟨rfl, rfl⟩⟩
      | true =>
        have h1 : g1 = { g0 with Players := g0.Players ++
            [{ Profile := s.Lobby.lookup p.Client, Team := 0 }] } := by
          unfold Game.JoinGame at hj
          by_cases c1 : g0.maxPlayers ≤ g0.Players.length
          · simp [c1] at hj
          · by_cases c2 : (g0.started && !g0.CanStartBeforeFull) = true
            · simp [c1, c2] at hj
            · simp only [Bool.not_eq_true] at c2
              simp only [c1, c2, if_false, Bool.false_eq_true, Prod.mk.injEq, true_and] at hj
              exact hj.symm
        simp only [hj] at h
        cases hp : s.Lobby.lookup p.Client with
        | none => simp [hp] at h
        | some q =>
          simp only [hp, Option.some.injEq, Prod.mk.injEq] at h
          obtain ⟨rfl, rfl⟩ := h
          subst h1
          rw [hp]
          exact ⟨rfl, rfl, rfl, Or.inr ⟨rfl, rfl, rfl⟩⟩

theorem Server.WF_JoinGame (s s' : Server) (sessionID : String) (p : Profile) (g : Game)
    (hwf : s.WF) (h : s.JoinGame sessionID p = some (g, s')) : s'.WF := by
  obtain ⟨g0, hl, hg, hlob, hid, _⟩ := Server.JoinGame_some s s' sessionID p g h
  have hk : g0.ID = sessionID := hwf.2.2 _ (GoMap.lookup_mem _ _ _ hl)
  refine ⟨by rw [hlob]; exact hwf.1, by rw [hg]; exact GoMap.WF_store _ _ _ hwf.2.1, ?_⟩
  rw [hg]
  intro e he
  rcases GoMap.mem_store _ _ _ _ he with h1 | h1
  · rw [h1]; exact hid.trans hk
  · exact hwf.2.2 e h1

/-- What a completed `Disconnect` did. -/
theorem Server.Disconnect_some (s s' : Server) (c : ClientRef)
    (h : s.Disconnect c = some s') :
    s'.Lobby = s.Lobby.remove c ∧ s'.sent = s.sent ∧
    ((s.GameByClientPlaying c = some none ∧ s'.Games = s.Games) ∨
     (∃ k game, s.GameByClientPlaying c = some (some (k, game)) ∧
        (((game.RemoveClient c).Players ≠ [] ∧
            s'.Games = s.Games.store k (game.RemoveClient c)) ∨
         ((game.RemoveClient c).Players = [] ∧
            s'.Games = (s.Games.store k (game.RemoveClient c).Stop).remove game.ID)))) := by
  unfold Server.Disconnect at h
  cases hf : s.GameByClientPlaying c with
  | none => simp [hf] at h
  | some r =>
    cases r with
    | none =>
      simp only [hf, Option.some.injEq] at h
      subst h
      exact ⟨rfl, rfl, Or.inl ⟨rfl, rfl⟩⟩
    | some kg =>
      obtain ⟨k, game⟩ := kg
      simp only [hf, Option.some.injEq] at h
      subst h
      refine ⟨rfl, rfl, Or.inr ⟨k, game, rfl, ?_⟩⟩
      by_cases he : (game.RemoveClient c).Players = []
      · right
        refine ⟨he, ?_⟩
        have hlen : (game.RemoveClient c).Players.length = 0 := by rw [he]; rfl
        simp only [hlen, if_true, GoMap.store_store]
        rfl
      · left
        refine ⟨he, ?_⟩
        have : ¬ (game.RemoveClient c).Players.length = 0 := by
          simpa [List.length_eq_zero] using he
        simp [this]

theorem Server.WF_Disconnect (s s' : Server) (c : ClientRef) (hwf : s.WF)
    (h : s.Disconnect c = some s') : s'.WF := by
  obtain ⟨hl, _, hg⟩ := Server.Disconnect_some s s' c h
  refine ⟨by rw [hl]; exact GoMap.WF_remove _ _ hwf.1, ?_⟩
  rcases hg with ⟨_, hg⟩ | ⟨k, game, hf, hg⟩
  · rw [hg]; exact ⟨hwf.2.1, hwf.2.2⟩
  · have hmem := (gamesScanPlaying_found c s.Games k game hf).1
    have hid : game.ID = k := hwf.2.2 _ hmem
    rcases hg with ⟨_, hg⟩ | ⟨_, hg⟩
    · have := Server.WF_storeGame s k (game.RemoveClient c) hwf (by simpa [Game.RemoveClient] using hid)
      rw [hg]; exact ⟨this.2.1, this.2.2⟩
    · have := Server.WF_storeGame s k (game.RemoveClient c).Stop hwf
        (by simpa [Game.RemoveClient, Game.Stop] using hid)
      rw [hg]
      refine ⟨GoMap.WF_remove _ _ this.2.1, ?_⟩
      intro e he
      exact this.2.2 e ((GoMap.mem_remove _ _ _).1 he).1

/-! ## A client in at most one session -/

theorem Game.hasClient_RemoveClient (game : Game) (c c' : ClientRef)
    (h : (game.RemoveClient c).hasClient c' = true) : game.hasClient c' = true := by
  simp only [Game.hasClient, Game.RemoveClient, List.any_eq_true, List.mem_filter] at h ⊢
  obtain ⟨p, ⟨hp, _⟩, hpc⟩ := h
  exact ⟨p, hp, hpc⟩

theorem atMostOneSession_CreateServer (address : String) (b : Bool) :
    (CreateServer address b).atMostOneSession := by
  intro c
  simp [Server.sessionsOf, CreateServer]

theorem atMostOneSession_Disconnect (s s' : Server) (c : ClientRef) (hwf : s.WF)
    (h1 : s.atMostOneSession) (h : s.Disconnect c = some s') : s'.atMostOneSession := by
  obtain ⟨_, _, hg⟩ := Server.Disconnect_some s s' c h
  intro c'
  refine le_trans ?_ (h1 c')
  unfold Server.sessionsOf
  rcases hg with ⟨_, hg⟩ | ⟨k, game, hf, hg⟩
  · rw [hg]
  · have hmem := (gamesScanPlaying_found c s.Games k game hf).1
    have hl : s.Games.lookup k = some game := GoMap.lookup_of_mem _ _ _ hwf.2.1 hmem
    rcases hg with ⟨_, hg⟩ | ⟨_, hg⟩
    · rw [hg]
      exact GoMap.length_filter_store_mono _ _ _ _ _ hl
        (fun hp => Game.hasClient_RemoveClient game c c' hp)
    · rw [hg]
      refine le_trans (GoMap.length_filter_remove_le _ _ _) ?_
      exact GoMap.length_filter_store_mono _ _ _ _ _ hl
        (fun hp => Game.hasClient_RemoveClient game c c' hp)

theorem atMostOneSession_CreateGame (s : Server) (client : ClientRef) (fresh : FreshGame)
    (h1 : s.atMostOneSession) (hfree : s.seatFree client) :
    (s.CreateGame client fresh).2.atMostOneSession := by
  obtain ⟨hg, _, hpl, _⟩ := Server.CreateGame_games s client fresh
  intro c'
  unfold Server.sessionsOf
  rw [hg]
  by_cases hc : (s.CreateGame client fresh).1.hasClient c' = true
  · -- the creator is seated: it was seated nowhere before
    have hzero : (s.Games.filter (fun e => e.2.hasClient c')).length = 0 := by
      rw [List.length_eq_zero, List.filter_eq_nil_iff]
      intro e he
      simp only [Game.hasClient, hpl, List.any_cons, List.any_nil, Bool.or_false,
        Player.isClient] at hc
      cases hp : s.Lobby.lookup client with
      | none => simp [hp] at hc
      | some p =>
        simp only [hp, decide_eq_true_eq] at hc
        have := hfree p hp e he
        rw [hc] at this
        simp [this]
    have := GoMap.length_filter_store_le (fun e : String × Game => e.2.hasClient c')
      s.Games fresh.ID (s.CreateGame client fresh).1
    omega
  · refine le_trans (GoMap.length_filter_store_of_not _ _ _ _ ?_) (h1 c')
    simpa using hc

theorem atMostOneSession_JoinGame (s s' : Server) (sessionID : String) (p : Profile)
    (g : Game) (h1 : s.atMostOneSession) (hfree : s.seatFree p.Client)
    (h : s.JoinGame sessionID p = some (g, s')) : s'.atMostOneSession := by
  obtain ⟨g0, hl, hg, _, _, hcase⟩ := Server.JoinGame_some s s' sessionID p g h
  intro c'
  unfold Server.sessionsOf
  rw [hg]
  rcases hcase with ⟨he, _⟩ | ⟨hpl, _, _⟩
  · rw [he, GoMap.store_lookup _ _ _ hl]
    exact h1 c'
  · by_cases hc : ({ Profile := s.Lobby.lookup p.Client, Team := 0 } : Player).isClient c' = true
    · have hzero : (s.Games.filter (fun e => e.2.hasClient c')).length = 0 := by
        rw [List.length_eq_zero, List.filter_eq_nil_iff]
        intro e he
        simp only [Player.isClient] at hc
        cases hp : s.Lobby.lookup p.Client with
        | none => simp [hp] at hc
        | some q =>
          simp only [hp, decide_eq_true_eq] at hc
          have := hfree q hp e he
          rw [hc] at this
          simp [this]
      have := GoMap.length_filter_store_le (fun e : String × Game => e.2.hasClient c')
        s.Games sessionID g
      omega
    · refine le_trans (GoMap.length_filter_store_mono _ _ _ _ _ hl ?_) (h1 c')
      intro hin
      simp only [Game.hasClient, hpl, List.any_append, List.any_cons, List.any_nil,
        Bool.or_false, Bool.or_eq_true] at hin
      rcases hin with hin | hin
      · simpa [Game.hasClient] using hin
      · exact absurd hin hc

/-- C6, as stated, fails: client 1, already seated in session "g1", creates a
second session and is then a player of two sessions. -/
theorem atMostOneSession_counterexample :
    soloServer.atMostOneSession ∧
    ((soloServer.CreateGame 1 freshG2).2.sessionsOf 1).length = 2 ∧
    ¬ (soloServer.CreateGame 1 freshG2).2.atMostOneSession := by
  refine ⟨?_, by decide, ?_⟩
  · intro c
    exact le_trans (List.length_filter_le _ _) (by decide)
  · intro h
    have h1 := h 1
    revert h1
    decide

/-- C6 (amended): "a client is a player of at most one session" holds in the
state `CreateServer` builds and is kept by `GetOrCreateProfile`, `SetNick` and
`Disconnect` for every argument, and by `CreateGame(client)` and
`JoinGame(id, profile)` whenever the client the new player stands for is not
already a player of a session in `Games`. -/
theorem atMostOneSession_kept (s : Server) (hwf : s.WF) (h1 : s.atMostOneSession) :
    (∀ address b, (CreateServer address b).atMostOneSession) ∧
    (∀ client fresh, (s.GetOrCreateProfile client fresh).2.atMostOneSession) ∧
    (∀ client n fresh, ∃ s', s.SetNick client n fresh = some s' ∧ s'.atMostOneSession) ∧
    (∀ c s', s.Disconnect c = some s' → s'.atMostOneSession) ∧
    (∀ client fresh, s.seatFree client → (s.CreateGame client fresh).2.atMostOneSession) ∧
    (∀ sessionID p g s', s.seatFree p.Client → s.JoinGame sessionID p = some (g, s') →
      s'.atMostOneSession) := by
  refine ⟨atMostOneSession_CreateServer, ?_, ?_, ?_, ?_, ?_⟩
  · intro client fresh c'
    have hg : (s.GetOrCreateProfile client fresh).2.Games = s.Games := by
      unfold Server.GetOrCreateProfile
      cases s.Lobby.lookup client <;> rfl
    unfold Server.sessionsOf
    rw [hg]
    exact h1 c'
  · intro client n fresh
    obtain ⟨r, hr⟩ := createUniqueNick_isSome s n
    obtain ⟨s', _, hs, _, _, hg, _⟩ := SetNick_of_nick s client n r fresh hr
    refine ⟨s', hs, ?_⟩
    intro c'
    unfold Server.sessionsOf
    rw [hg]
    exact h1 c'
  · intro c s' h
    exact atMostOneSession_Disconnect s s' c hwf h1 h
  · intro client fresh hfree
    exact atMostOneSession_CreateGame s client fresh h1 hfree
  · intro sessionID p g s' hfree h
    exact atMostOneSession_JoinGame s s' sessionID p g h1 hfree h

theorem atMostOneSession_kept_witness :
    soloPlusTwo.WF ∧ soloPlusTwo.atMostOneSession ∧ soloPlusTwo.seatFree 2 ∧
    (soloPlusTwo.CreateGame 2 freshG2).2.atMostOneSession ∧
    ((soloPlusTwo.CreateGame 2 freshG2).2.sessionsOf 2).length = 1 :=
  have hwf : soloPlusTwo.WF := by
    unfold Server.WF GoMap.WF
    decide
  have h1 : soloPlusTwo.atMostOneSession := fun _ =>
    le_trans (List.length_filter_le _ _) (by decide)
  have hfree : soloPlusTwo.seatFree 2 := by
    intro p hp
    have hl : soloPlusTwo.Lobby.lookup 2 = some (CreateProfile 2 freshA) := by decide
    rw [hl] at hp
    cases hp
    decide
  ⟨hwf, h1, hfree, (atMostOneSession_kept soloPlusTwo hwf h1).2.2.2.2.1 2 freshG2 hfree,
    by decide⟩

/-! ## Who changes a player list -/

/-- C10: `CreateGame(client)` returns a session `g` that `Games` then maps
`g`'s id to; its owner has team 1 and the profile `Lobby[client]`; its
`CanStartBeforeFull` is the server's setting; exactly one task, "announce the
board view, then share state", is in its queue; the Lobby and what was sent
are untouched; and when the id is fresh, `Games` is the old `Games` with this
one entry added, so every other entry is unchanged and there is exactly one
session more. -/
theorem CreateGame_registers (s : Server) (client : ClientRef) (fresh : FreshGame) :
    (s.CreateGame client fresh).2.Games.lookup (s.CreateGame client fresh).1.ID
      = some (s.CreateGame client fresh).1 ∧
    (s.CreateGame client fresh).1.ID = fresh.ID ∧
    (s.CreateGame client fresh).1.Owner.Team = 1 ∧
    (s.CreateGame client fresh).1.Owner.Profile = s.Lobby.lookup client ∧
    (s.CreateGame client fresh).1.CanStartBeforeFull = s.canStartBeforeFull ∧
    (s.CreateGame client fresh).1.todo = [Task.announceShare Message.viewBoard] ∧
    (s.CreateGame client fresh).2.Lobby = s.Lobby ∧
    (s.CreateGame client fresh).2.sent = s.sent ∧
    (s.Games.lookup fresh.ID = none →
      (s.CreateGame client fresh).2.Games
        = s.Games ++ [(fresh.ID, (s.CreateGame client fresh).1)] ∧
      (∀ k, k ≠ fresh.ID →
        (s.CreateGame client fresh).2.Games.lookup k = s.Games.lookup k) ∧
      (∀ e ∈ s.Games, e ∈ (s.CreateGame client fresh).2.Games) ∧
      (s.CreateGame client fresh).2.Games.length = s.Games.length + 1) := by
  obtain ⟨hg, hid, _, hl⟩ := Server.CreateGame_games s client fresh
  refine ⟨?_, hid, ?_, ?_, ?_, ?_, hl, ?_, ?_⟩
  · rw [hg, hid, GoMap.lookup_store_self]
  · simp [Server.CreateGame, Chess.CreateGame, Game.DoWork]
  · simp [Server.CreateGame, Chess.CreateGame, Game.DoWork]
  · simp [Server.CreateGame, Chess.CreateGame, Game.DoWork]
  · simp [Server.CreateGame, Chess.CreateGame, Game.DoWork]
  · simp [Server.CreateGame]
  · intro hfresh
    have happ := GoMap.store_fresh s.Games fresh.ID (s.CreateGame client fresh).1 hfresh
    refine ⟨by rw [hg, happ], ?_, ?_, ?_⟩
    · intro k hk
      rw [hg, GoMap.lookup_store_ne _ _ _ _ hk]
    · intro e he
      rw [hg, happ]
      exact List.mem_append_left _ he
    · rw [hg, happ]
      simp

theorem CreateGame_registers_witness :
    soloPlusTwo.Games.lookup freshG2.ID = none ∧
    (soloPlusTwo.CreateGame 2 freshG2).2.Games.length = soloPlusTwo.Games.length + 1 ∧
    (soloPlusTwo.CreateGame 2 freshG2).1.Owner.Profile = some (CreateProfile 2 freshA) ∧
    (soloPlusTwo.CreateGame 2 freshG2).2.Games.lookup "g1" = soloPlusTwo.Games.lookup "g1" :=
  ⟨by decide,
    ((CreateGame_registers soloPlusTwo 2 freshG2).2.2.2.2.2.2.2.2 (by decide)).2.2.2,
    by decide,
    ((CreateGame_registers soloPlusTwo 2 freshG2).2.2.2.2.2.2.2.2 (by decide)).2.1 "g1"
      (by decide)⟩

/-! ## GetOrCreateProfile -/

/-- C11: `GetOrCreateProfile(client)` returns `Lobby[client]` and leaves the
state as it is when the client has a profile; otherwise it returns a new
profile and adds exactly one Lobby entry, for that client, holding it, every
other entry staying as it was; in both cases the profile returned is what the
Lobby then holds for the client, and a second call in a row returns the same
profile and changes nothing. -/
theorem GetOrCreateProfile_idempotent (s : Server) (client : ClientRef)
    (fresh : FreshProfile) :
    (∀ p, s.Lobby.lookup client = some p → s.GetOrCreateProfile client fresh = (p, s)) ∧
    (s.Lobby.lookup client = none →
      (s.GetOrCreateProfile client fresh).1 = CreateProfile client fresh ∧
      (s.GetOrCreateProfile client fresh).2.Lobby
        = s.Lobby ++ [(client, (s.GetOrCreateProfile client fresh).1)] ∧
      (s.GetOrCreateProfile client fresh).2.Lobby.length = s.Lobby.length + 1 ∧
      (∀ c, c ≠ client →
        (s.GetOrCreateProfile client fresh).2.Lobby.lookup c = s.Lobby.lookup c) ∧
      (s.GetOrCreateProfile client fresh).2.Games = s.Games ∧
      (s.GetOrCreateProfile client fresh).2.sent = s.sent) ∧
    (s.GetOrCreateProfile client fresh).2.Lobby.lookup client
      = some (s.GetOrCreateProfile client fresh).1 ∧
    (∀ fresh2, (s.GetOrCreateProfile client fresh).2.GetOrCreateProfile client fresh2
      = s.GetOrCreateProfile client fresh) := by
  refine ⟨?_, ?_, GetOrCreateProfile_lookup s client fresh, ?_⟩
  · intro p hp
    simp [Server.GetOrCreateProfile, hp]
  · intro hn
    have hst := GoMap.store_fresh s.Lobby client (CreateProfile client fresh) hn
    refine ⟨?_, ?_, ?_, ?_, ?_, ?_⟩
    · simp [Server.GetOrCreateProfile, hn]
    · simp [Server.GetOrCreateProfile, hn, hst]
    · simp [Server.GetOrCreateProfile, hn, hst]
    · intro c hc
      exact GetOrCreateProfile_lookup_ne s client c fresh hc
    · simp [Server.GetOrCreateProfile, hn]
    · simp [Server.GetOrCreateProfile, hn]
  · intro fresh2
    have h := GetOrCreateProfile_lookup s client fresh
    generalize s.GetOrCreateProfile client fresh = r at h ⊢
    obtain ⟨p, s1⟩ := r
    simp only at h
    simp [Server.GetOrCreateProfile, h]

theorem GetOrCreateProfile_idempotent_witness :
    soloServer.Lobby.lookup 2 = none ∧
    (soloServer.GetOrCreateProfile 2 freshA).2.Lobby.length = soloServer.Lobby.length + 1 ∧
    (soloServer.GetOrCreateProfile 2 freshA).2.Lobby.lookup 1 = soloServer.Lobby.lookup 1 ∧
    soloServer.GetOrCreateProfile 1 freshA = (CreateProfile 1 freshA, soloServer) :=
  ⟨by decide,
    ((GetOrCreateProfile_idempotent soloServer 2 freshA).2.1 (by decide)).2.2.1,
    ((GetOrCreateProfile_idempotent soloServer 2 freshA).2.1 (by decide)).2.2.2.1 1
      (by decide),
    (GetOrCreateProfile_idempotent soloServer 1 freshA).1 (CreateProfile 1 freshA)
      (by decide)⟩

/-! ## The answer and the cost of createUniqueNick -/

theorem candidate_one (nickIn : String) : candidate nickIn 1 = nickIn := by
  simp [candidate]

theorem candidate_ge_two (nickIn : String) (k : Nat) (h : 2 ≤ k) :
    candidate nickIn k = nickIn ++ toString k := by
  have hne : ¬ k = 1 := by omega
  simp [candidate, hne]

/-- C15: `createUniqueNick(n)` returns `n` itself when no profile is nicknamed
`n`; otherwise it returns `n` followed by the decimal digits of the smallest
`k ≥ 2` for which `n` followed by `k` is the nickname of no profile: that
nickname is free and every suffix from 2 to `k - 1` is taken (so the suffix 1
is never used). -/
theorem createUniqueNick_smallest_suffix (s : Server) (n : String) :
    ∃ r, s.createUniqueNick n = some r ∧
      (nickInUse s.Lobby n = false → r = n) ∧
      (nickInUse s.Lobby n = true →
        ∃ k, 2 ≤ k ∧ r = n ++ toString k ∧
          nickInUse s.Lobby (n ++ toString k) = false ∧
          ∀ t, 2 ≤ t → t < k → nickInUse s.Lobby (n ++ toString t) = true) := by
  obtain ⟨r, hr⟩ := createUniqueNick_isSome s n
  refine ⟨r, hr, ?_, ?_⟩
  · intro hfree
    rw [createUniqueNick_of_free s n hfree] at hr
    exact (Option.some.inj hr).symm
  · intro huse
    have hc : createUniqueNickLoop s.Lobby n (s.Lobby.length + 1) 1 (candidate n 1) = some r := by
      rw [candidate_one]; exact hr
    obtain ⟨j, h1, _, hj, hfree, hall⟩ :=
      createUniqueNickLoop_some s.Lobby n _ 1 r (le_refl _) hc
    have hj2 : 2 ≤ j := by
      by_contra hlt
      have : j = 1 := by omega
      rw [this, candidate_one] at hj
      rw [hj, huse] at hfree
      exact absurd hfree (by decide)
    refine ⟨j, hj2, by rw [hj, candidate_ge_two n j hj2], ?_, ?_⟩
    · rw [← candidate_ge_two n j hj2, ← hj]; exact hfree
    · intro t ht1 ht2
      rw [← candidate_ge_two n t ht1]
      exact hall t (by omega) ht2

theorem createUniqueNick_smallest_suffix_witness :
    nickInUse aliceLobby.Lobby "Alice2" = true ∧
    ∃ r, aliceLobby.createUniqueNick "Alice2" = some r ∧
      ∃ k, 2 ≤ k ∧ r = "Alice2" ++ toString k ∧
        nickInUse aliceLobby.Lobby ("Alice2" ++ toString k) = false ∧
        ∀ t, 2 ≤ t → t < k → nickInUse aliceLobby.Lobby ("Alice2" ++ toString t) = true :=
  ⟨by decide,
    match createUniqueNick_smallest_suffix aliceLobby "Alice2" with
    | ⟨r, hr, _, h2⟩ => ⟨r, hr, h2 (by decide)⟩⟩

/-- C16: the search loop of `createUniqueNick` ends: there is a `j` between 1
and `m + 1`, for a Lobby of `m` profiles, such that the loop answers with the
`j`-th candidate as soon as it may test `j` candidates and not before; the
candidates are pairwise distinct strings. -/
theorem createUniqueNick_terminates (s : Server) (n : String) :
    (∃ j, 1 ≤ j ∧ j ≤ s.Lobby.length + 1 ∧
      (∀ fuel, j ≤ fuel → createUniqueNickLoop s.Lobby n fuel 1 n = some (candidate n j)) ∧
      (∀ fuel, fuel < j → createUniqueNickLoop s.Lobby n fuel 1 n = none) ∧
      s.createUniqueNick n = some (candidate n j)) ∧
    (∀ i k, 1 ≤ i → 1 ≤ k → candidate n i = candidate n k → i = k) := by
  refine ⟨?_, fun i k hi hk h => candidate_injective n i k hi hk h⟩
  obtain ⟨r, hr⟩ := createUniqueNick_isSome s n
  have hc : createUniqueNickLoop s.Lobby n (s.Lobby.length + 1) 1 (candidate n 1) = some r := by
    rw [candidate_one]; exact hr
  obtain ⟨j, h1, h2, hj, hfree, hall⟩ :=
    createUniqueNickLoop_some s.Lobby n _ 1 r (le_refl _) hc
  subst hj
  refine ⟨j, h1, by omega, ?_, ?_, hr⟩
  · intro fuel hf
    cases hl : createUniqueNickLoop s.Lobby n fuel 1 n with
    | none =>
      exfalso
      have hl' : createUniqueNickLoop s.Lobby n fuel 1 (candidate n 1) = none := by
        rw [candidate_one]; exact hl
      have := createUniqueNickLoop_none s.Lobby n fuel 1 (le_refl _) hl' j h1 (by omega)
      rw [this] at hfree
      exact absurd hfree (by decide)
    | some r2 =>
      have hl' : createUniqueNickLoop s.Lobby n fuel 1 (candidate n 1) = some r2 := by
        rw [candidate_one]; exact hl
      obtain ⟨j2, g1, _, gj, gfree, gall⟩ :=
        createUniqueNickLoop_some s.Lobby n fuel 1 r2 (le_refl _) hl'
      subst gj
      have : j2 = j := by
        rcases Nat.lt_trichotomy j2 j with hlt | heq | hgt
        · have := hall j2 g1 hlt
          rw [this] at gfree
          exact absurd gfree (by decide)
        · exact heq
        · have := gall j h1 hgt
          rw [this] at hfree
          exact absurd hfree (by decide)
      rw [this]
  · intro fuel hf
    cases hl : createUniqueNickLoop s.Lobby n fuel 1 n with
    | none => rfl
    | some r2 =>
      exfalso
      have hl' : createUniqueNickLoop s.Lobby n fuel 1 (candidate n 1) = some r2 := by
        rw [candidate_one]; exact hl
      obtain ⟨j2, g1, g2, gj, gfree, _⟩ :=
        createUniqueNickLoop_some s.Lobby n fuel 1 r2 (le_refl _) hl'
      subst gj
      have := hall j2 g1 (by omega)
      rw [this] at gfree
      exact absurd gfree (by decide)

theorem createUniqueNick_terminates_witness :
    ∃ j, j ≤ aliceLobby.Lobby.length + 1 ∧
      createUniqueNickLoop aliceLobby.Lobby "Alice2" 5 1 "Alice2"
        = some (candidate "Alice2" j) ∧
      createUniqueNickLoop aliceLobby.Lobby "Alice2" 5 1 "Alice2" = some "Alice22" :=
  match (createUniqueNick_terminates aliceLobby "Alice2").1 with
  | ⟨j, _, h2, h3, _, _⟩ => ⟨j, h2, h3 5 (le_trans h2 (by decide)), by decide⟩

/-- C18: `SetNick` is not idempotent on a client's own nickname: when the
client's profile is already nicknamed `n` and no profile is nicknamed `n`
followed by 2, `SetNick(client, n)` renames the client to `n` followed by 2,
the client's own profile being among those the request is compared with. -/
theorem SetNick_own_nick (s : Server) (client : ClientRef) (n : String)
    (fresh : FreshProfile) (p : Profile) (hp : s.Lobby.lookup client = some p)
    (hn : p.Nick = n) (hfree : nickInUse s.Lobby (n ++ "2") = false) :
    s.createUniqueNick n = some (n ++ "2") ∧
    ∃ s', s.SetNick client n fresh = some s' ∧
      s'.nickOf client = some (n ++ "2") ∧ s'.nickOf client ≠ s.nickOf client := by
  have huse : nickInUse s.Lobby n = true := by
    rw [nickInUse_iff, List.mem_map]
    exact ⟨(client, p), GoMap.lookup_mem _ _ _ hp, hn⟩
  have hnick := createUniqueNick_second s n huse hfree
  obtain ⟨s', q, hs, hl, hq, _, _⟩ := SetNick_of_nick s client n (n ++ "2") fresh hnick
  have hnew : s'.nickOf client = some (n ++ "2") := by
    simp only [Server.nickOf]
    rw [hl, GoMap.lookup_store_self]
    simp [hq]
  refine ⟨hnick, s', hs, hnew, ?_⟩
  rw [hnew]
  simp only [Server.nickOf, hp, Option.map_some', hn, ne_eq, Option.some.injEq]
  intro h0
  have := congrArg String.length h0
  simp at this
  exact absurd this (by decide)

theorem SetNick_own_nick_witness :
    aliceLobby.Lobby.lookup 3
      = some { Client := 3, Nick := "Alice2", Secret := "s3", ID := "p3" } ∧
    nickInUse aliceLobby.Lobby ("Alice2" ++ "2") = false ∧
    ∃ s', aliceLobby.SetNick 3 "Alice2" freshA = some s' ∧
      s'.nickOf 3 = some ("Alice2" ++ "2") ∧ s'.nickOf 3 ≠ aliceLobby.nickOf 3 :=
  ⟨by decide, by decide,
    (SetNick_own_nick aliceLobby 3 "Alice2" freshA
      { Client := 3, Nick := "Alice2", Secret := "s3", ID := "p3" }
      (by decide) rfl (by decide)).2⟩

/-! ## The scans on sessions whose players all have a profile -/

theorem playersScan_profiled (client : ClientRef) (ps : List Player)
    (h : ∀ p ∈ ps, p.Profile ≠ none) :
    playersScan client ps = some (ps.any (fun p => p.isClient client)) := by
  induction ps with
  | nil => simp [playersScan]
  | cons p ps ih =>
    have ih' := ih (fun q hq => h q (List.mem_cons_of_mem _ hq))
    unfold playersScan
    cases hp : p.Profile with
    | none => exact absurd hp (h p (List.mem_cons_self _ _))
    | some pr =>
      by_cases hc : pr.Client = client
      · simp [hc, Player.isClient, hp]
      · simp [hc, Player.isClient, hp, ih']

theorem gamesScanPlaying_profiled (client : ClientRef) (games : GoMap String Game)
    (h : ∀ e ∈ games, ∀ p ∈ e.2.Players, p.Profile ≠ none) :
    ∃ r, gamesScanPlaying client games = some r ∧
      r.isSome = games.any (fun e => e.2.hasClient client) := by
  induction games with
  | nil => exact ⟨none, rfl, rfl⟩
  | cons e rest ih =>
    obtain ⟨k, game⟩ := e
    obtain ⟨r, hr, hsome⟩ := ih (fun e he => h e (List.mem_cons_of_mem _ he))
    have hscan := playersScan_profiled client game.Players
      (h (k, game) (List.mem_cons_self _ _))
    unfold gamesScanPlaying
    cases hb : game.Players.any (fun p => p.isClient client) with
    | true =>
      rw [hb] at hscan
      exact ⟨some (k, game), by simp [hscan], by simp [Game.hasClient, hb]⟩
    | false =>
      rw [hb] at hscan
      exact ⟨r, by simp [hscan, hr], by simp [Game.hasClient, hb, hsome]⟩

theorem playersScan_true_hasClient (client : ClientRef) (game : Game)
    (h : playersScan client game.Players = some true) : game.hasClient client = true := by
  obtain ⟨p, hp, hpc⟩ := playersScan_true client _ h
  simp only [Game.hasClient, List.any_eq_true]
  exact ⟨p, hp, hpc⟩

/-- C17: when every player of every session has a profile,
`GameByClientPlaying(client)` completes; it reports `found = true` exactly
when some session in `Games` has a player whose profile's client is `client`;
the session it then returns is an entry of `Games` and has such a player; and
with `found = false` the session returned is nil (the result is `some none`).
The scan is a function of the state alone and returns no new state. -/
theorem GameByClientPlaying_found_iff (s : Server) (client : ClientRef)
    (hprof : s.profiled) :
    ∃ r, s.GameByClientPlaying client = some r ∧
      (r.isSome = true ↔ ∃ e ∈ s.Games, e.2.hasClient client = true) ∧
      (∀ k game, r = some (k, game) → (k, game) ∈ s.Games ∧ game.hasClient client = true) ∧
      (r = none ↔ ∀ e ∈ s.Games, e.2.hasClient client = false) := by
  obtain ⟨r, hr, hsome⟩ := gamesScanPlaying_profiled client s.Games hprof
  refine ⟨r, hr, ?_, ?_, ?_⟩
  · rw [hsome, List.any_eq_true]
  · intro k game hk
    subst hk
    obtain ⟨hmem, hscan⟩ := gamesScanPlaying_found client s.Games k game hr
    exact ⟨hmem, playersScan_true_hasClient client game hscan⟩
  · constructor
    · intro hn
      subst hn
      exact gamesScanPlaying_missing client s.Games hr
    · intro hall
      cases r with
      | none => rfl
      | some kg =>
        obtain ⟨hmem, hscan⟩ := gamesScanPlaying_found client s.Games kg.1 kg.2 hr
        have := hall _ hmem
        rw [playersScan_true_hasClient client kg.2 hscan] at this
        exact absurd this (by decide)

theorem GameByClientPlaying_found_iff_witness :
    duoServer.profiled ∧
    duoServer.GameByClientPlaying 2 = some (some ("g1", duoGame)) ∧
    duoServer.GameByClientPlaying 3 = some none ∧
    ∃ r, duoServer.GameByClientPlaying 2 = some r ∧
      (r.isSome = true ↔ ∃ e ∈ duoServer.Games, e.2.hasClient 2 = true) :=
  have h : duoServer.profiled := by
    unfold Server.profiled
    decide
  ⟨h, by decide, by decide,
    match GameByClientPlaying_found_iff duoServer 2 h with
    | ⟨r, hr, hiff, _, _⟩ => ⟨r, hr, hiff⟩⟩

/-! ## NotifyLobby -/

theorem notifyLoop_profiled (b : Message) (lobby : GoMap ClientRef Profile) :
    ∀ s : Server, s.profiled →
      notifyLoop b lobby s = some { s with
        sent := s.sent ++ (lobby.filter (fun e => !s.isPlaying e.1)).map
          (fun e => (e.1, b)) } := by
  induction lobby with
  | nil => intro s _; simp [notifyLoop]
  | cons e rest ih =>
    intro s hprof
    obtain ⟨client, pr⟩ := e
    obtain ⟨r, hr, hsome⟩ := gamesScanPlaying_profiled client s.Games hprof
    have hplay : s.isPlaying client = r.isSome := by
      rw [hsome]; rfl
    unfold notifyLoop
    cases r with
    | none =>
      have hsend : (s.send client b).profiled := hprof
      have hgames : ∀ c, (s.send client b).isPlaying c = s.isPlaying c := fun _ => rfl
      simp only [Server.GameByClientPlaying, hr, ih (s.send client b) hsend, hgames]
      simp [List.filter_cons, hplay, Server.send]
    | some kg =>
      simp only [Server.GameByClientPlaying, hr, ih s hprof]
      simp [List.filter_cons, hplay]

/-- On a state where every player of every session has a profile,
`NotifyLobby` completes, changes neither the Lobby nor `Games`, and writes the
encoded listing exactly once to each Lobby client that is a player of no
session, and to no Lobby client that is a player of some session: what it
appends to the send channels is one listing per client of `notified`, a list
without repetition that holds exactly those clients. -/
theorem NotifyLobby_sends (s : Server) (hprof : s.profiled) (hwf : s.WF) :
    s.NotifyLobby = some { s with
      sent := s.sent ++ s.notified.map (fun c => (c, s.CreateListOfGames)) } ∧
    s.notified.Nodup ∧
    ∀ c, c ∈ s.notified ↔ (c ∈ s.Lobby.keys ∧ s.isPlaying c = false) := by
  refine ⟨?_, ?_, ?_⟩
  · unfold Server.NotifyLobby
    rw [notifyLoop_profiled _ _ s hprof]
    simp [Server.notified, List.map_map, Function.comp]
  · unfold Server.notified
    exact (List.Sublist.map _ (List.filter_sublist _)).nodup hwf.1
  · intro c
    simp only [Server.notified, GoMap.keys, List.mem_map, List.mem_filter,
      Bool.not_eq_true']
    constructor
    · rintro ⟨e, ⟨he, hp⟩, rfl⟩
      exact ⟨⟨e, he, rfl⟩, hp⟩
    · rintro ⟨⟨e, he, rfl⟩, hp⟩
      exact ⟨e, ⟨he, hp⟩, rfl⟩

theorem NotifyLobby_sends_witness :
    soloPlusTwo.profiled ∧ soloPlusTwo.WF ∧
    soloPlusTwo.NotifyLobby = some { soloPlusTwo with
      sent := soloPlusTwo.sent ++
        soloPlusTwo.notified.map (fun c => (c, soloPlusTwo.CreateListOfGames)) } ∧
    soloPlusTwo.notified = [2] ∧ soloPlusTwo.Lobby.keys = [1, 2] :=
  have hp : soloPlusTwo.profiled := by
    unfold Server.profiled
    decide
  have hwf : soloPlusTwo.WF := by
    unfold Server.WF GoMap.WF
    decide
  ⟨hp, hwf, (NotifyLobby_sends soloPlusTwo hp hwf).1, by decide, by decide⟩

/-- C12 (failing input): client 1, who has no profile, created session "g1";
client 2 then got a profile.  On that state, reached from the initial one by
two operations, client 2 is in the Lobby and is a player of no session, yet
`NotifyLobby` does not complete and sends client 2 nothing: its scan for
client 2 dereferences the nil profile of the player of "g1". -/
theorem NotifyLobby_nil_profile_faults :
    orphanPlusTwo
      = (((CreateServer "" false).CreateGame 1 freshG1).2.GetOrCreateProfile 2 freshA).2 ∧
    orphanPlusTwo.WF ∧
    orphanPlusTwo.Lobby.keys = [2] ∧ orphanPlusTwo.isPlaying 2 = false ∧
    orphanPlusTwo.GameByClientPlaying 2 = none ∧
    orphanPlusTwo.NotifyLobby = none := by
  refine ⟨rfl, ?_, by decide, by decide, by decide, by decide⟩
  unfold Server.WF GoMap.WF
  decide

/-! ## ChangeSeat and Move on a lookup miss -/

theorem GameByClientPlaying_miss (s : Server) (client : ClientRef)
    (hnot : s.isPlaying client = false) (hscan : s.GameByClientPlaying client ≠ none) :
    s.GameByClientPlaying client = some none := by
  cases hr : s.GameByClientPlaying client with
  | none => exact absurd hr hscan
  | some r =>
    cases r with
    | none => rfl
    | some kg =>
      exfalso
      obtain ⟨hmem, hs⟩ := gamesScanPlaying_found client s.Games kg.1 kg.2 hr
      have hhas := playersScan_true_hasClient client kg.2 hs
      have : s.isPlaying client = true := by
        simp only [Server.isPlaying, List.any_eq_true]
        exact ⟨kg, hmem, hhas⟩
      rw [hnot] at this
      exact absurd this (by decide)

/-- On a lookup miss `ChangeSeat` goes on without a found-check and makes its
`DoWork` call on the nil session, a nil dereference; `Move` returns at its
found-check, enqueues nothing and leaves the server state as it is. -/
theorem ChangeSeat_on_miss (s : Server) (client : ClientRef) (seat : Int)
    (message : MessageMove) (hmiss : s.GameByClientPlaying client = some none) :
    s.ChangeSeat client seat = none ∧ s.Move message client = some s := by
  simp [Server.ChangeSeat, Server.Move, hmiss]

theorem ChangeSeat_on_miss_witness :
    soloPlusTwo.GameByClientPlaying 2 = some none ∧
    soloPlusTwo.ChangeSeat 2 3 = none ∧ soloPlusTwo.Move "e2e4" 2 = some soloPlusTwo :=
  ⟨by decide, ChangeSeat_on_miss soloPlusTwo 2 3 "e2e4" (by decide)⟩

/-- C19 (failing input): from the initial state, `CreateGame` for client 1,
who has no profile, registers a session whose owner and only player has a nil
profile; on that reachable state `GameByClientOwner` and
`GameByClientPlaying` both dereference it. -/
theorem nil_profile_reachable :
    (CreateServer "" false).Lobby.lookup 1 = none ∧
    orphanServer = ((CreateServer "" false).CreateGame 1 freshG1).2 ∧
    (orphanServer.Games.map (fun e => (e.2.Owner.Profile, e.2.Players.map (fun p => p.Profile))))
      = [(none, [none])] ∧
    ¬ orphanServer.allProfiles ∧
    orphanServer.GameByClientOwner 2 = none ∧
    orphanServer.GameByClientPlaying 2 = none := by
  refine ⟨by decide, rfl, by decide, ?_, by decide, by decide⟩
  unfold Server.allProfiles
  decide

theorem allProfiles_store (s : Server) (k : String) (game : Game) (h : s.allProfiles)
    (hg : game.Owner.Profile ≠ none ∧ ∀ p ∈ game.Players, p.Profile ≠ none) :
    ({ s with Games := s.Games.store k game } : Server).allProfiles := by
  intro e he
  rcases GoMap.mem_store _ _ _ _ he with h1 | h1
  · rw [h1]; exact hg
  · exact h e h1

/-- A completed `Server.JoinGame` keeps the owner of the session, and where it
added a player the joining client has a profile (the log line read it). -/
theorem Server.JoinGame_owner (s s' : Server) (sessionID : String) (p : Profile) (g : Game)
    (h : s.JoinGame sessionID p = some (g, s')) :
    ∃ g0, s.Games.lookup sessionID = some g0 ∧ g.Owner = g0.Owner ∧
      (g.Players = g0.Players ∨
       ∃ q, s.Lobby.lookup p.Client = some q ∧
         g.Players = g0.Players ++ [{ Profile := some q, Team := 0 }]) := by
  unfold Server.JoinGame at h
  cases hl : s.Games.lookup sessionID with
  | none => simp [hl] at h
  | some g0 =>
    simp only [hl] at h
    refine ⟨g0, rfl, ?_⟩
    unfold Game.JoinGame at h
    by_cases c1 : g0.maxPlayers ≤ g0.Players.length
    · simp only [c1, if_true, Option.some.injEq, Prod.mk.injEq] at h
      rw [← h.1]
      exact ⟨rfl, Or.inl rfl⟩
    · by_cases c2 : (g0.started && !g0.CanStartBeforeFull) = true
      · simp only [c1, c2, if_true, if_false, Option.some.injEq, Prod.mk.injEq] at h
        rw [← h.1]
        exact ⟨rfl, Or.inl rfl⟩
      · simp only [Bool.not_eq_true] at c2
        simp only [c1, c2, if_false, Bool.false_eq_true] at h
        cases hp : s.Lobby.lookup p.Client with
        | none => simp [hp] at h
        | some q =>
          simp only [hp, Option.some.injEq, Prod.mk.injEq] at h
          rw [← h.1]
          exact ⟨rfl, Or.inr ⟨q, rfl, rfl⟩⟩

/-- Where `CreateGame` is only called for clients that have a profile, the
operations keep every owner and player profiled: the nil profile enters
through `CreateGame` for a client without a profile and nowhere else. -/
theorem allProfiles_kept (s : Server) (h : s.allProfiles) :
    (∀ address b, (CreateServer address b).allProfiles) ∧
    (∀ client fresh, (s.GetOrCreateProfile client fresh).2.allProfiles) ∧
    (∀ client n fresh s', s.SetNick client n fresh = some s' → s'.allProfiles) ∧
    (∀ c s', s.Disconnect c = some s' → s'.allProfiles) ∧
    (∀ client fresh p, s.Lobby.lookup client = some p →
      (s.CreateGame client fresh).2.allProfiles) ∧
    (∀ sessionID p g s', s.JoinGame sessionID p = some (g, s') → s'.allProfiles) := by
  refine ⟨?_, ?_, ?_, ?_, ?_, ?_⟩
  · intro address b e he
    simp [CreateServer] at he
  · intro client fresh
    have hg : (s.GetOrCreateProfile client fresh).2.Games = s.Games := by
      unfold Server.GetOrCreateProfile
      cases s.Lobby.lookup client <;> rfl
    intro e he
    rw [hg] at he
    exact h e he
  · intro client n fresh s' hs
    obtain ⟨r, hr⟩ := createUniqueNick_isSome s n
    obtain ⟨s1, _, hs1, _, _, hg, _⟩ := SetNick_of_nick s client n r fresh hr
    rw [hs1] at hs
    cases hs
    intro e he
    rw [hg] at he
    exact h e he
  · intro c s' hs
    obtain ⟨_, _, hg⟩ := Server.Disconnect_some s s' c hs
    rcases hg with ⟨_, hg⟩ | ⟨k, game, hf, hg⟩
    · intro e he
      rw [hg] at he
      exact h e he
    · have hmem := (gamesScanPlaying_found c s.Games k game hf).1
      have hgame := h _ hmem
      have hrem : (game.RemoveClient c).Owner.Profile ≠ none ∧
          ∀ p ∈ (game.RemoveClient c).Players, p.Profile ≠ none := by
        refine ⟨hgame.1, ?_⟩
        intro p hp
        simp only [Game.RemoveClient, List.mem_filter] at hp
        exact hgame.2 p hp.1
      rcases hg with ⟨_, hg⟩ | ⟨_, hg⟩
      · intro e he
        rw [hg] at he
        exact allProfiles_store s k _ h hrem e he
      · intro e he
        rw [hg] at he
        exact allProfiles_store s k (game.RemoveClient c).Stop h hrem e
          ((GoMap.mem_remove _ _ _).1 he).1
  · intro client fresh p hp
    obtain ⟨hg, _, hpl, _⟩ := Server.CreateGame_games s client fresh
    have hown : (s.CreateGame client fresh).1.Owner.Profile = s.Lobby.lookup client := by
      simp [Server.CreateGame, Chess.CreateGame, Game.DoWork]
    intro e he
    rw [hg] at he
    refine allProfiles_store s fresh.ID _ h ⟨?_, ?_⟩ e he
    · rw [hown, hp]; simp
    · intro q hq
      rw [hpl] at hq
      simp only [List.mem_singleton] at hq
      rw [hq]
      simp [hp]
  · intro sessionID p g s' hs
    obtain ⟨g0, hl, hown, hpl⟩ := Server.JoinGame_owner s s' sessionID p g hs
    obtain ⟨_, _, hg, _, _, _⟩ := Server.JoinGame_some s s' sessionID p g hs
    have hg0 := h _ (GoMap.lookup_mem _ _ _ hl)
    intro e he
    rw [hg] at he
    refine allProfiles_store s sessionID g h ⟨?_, ?_⟩ e he
    · rw [hown]; exact hg0.1
    · intro x hx
      rcases hpl with hpl | ⟨q, _, hpl⟩
      · rw [hpl] at hx
        exact hg0.2 x hx
      · rw [hpl, List.mem_append, List.mem_singleton] at hx
        rcases hx with hx | hx
        · exact hg0.2 x hx
        · rw [hx]; simp

theorem allProfiles_kept_witness :
    soloPlusTwo.allProfiles ∧ soloPlusTwo.Lobby.lookup 2 = some (CreateProfile 2 freshA) ∧
    (soloPlusTwo.CreateGame 2 freshG2).2.allProfiles :=
  have h : soloPlusTwo.allProfiles := by
    unfold Server.allProfiles
    decide
  ⟨h, by decide,
    (allProfiles_kept soloPlusTwo h).2.2.2.2.1 2 freshG2 (CreateProfile 2 freshA) (by decide)⟩

/-! ## The frame of Disconnect -/

theorem Disconnect_completes (s : Server) (c : ClientRef) (hprof : s.profiled) :
    ∃ s', s.Disconnect c = some s' := by
  obtain ⟨r, hr, _⟩ := gamesScanPlaying_profiled c s.Games hprof
  cases hd : s.Disconnect c with
  | some s' => exact ⟨s', rfl⟩
  | none =>
    exfalso
    unfold Server.Disconnect at hd
    cases r with
    | none => simp [Server.GameByClientPlaying, hr] at hd
    | some kg => simp [Server.GameByClientPlaying, hr] at hd

/-- C20: `Disconnect(client)` completes wherever the scan meets no nil
profile, and a completed `Disconnect(client)` touches only what belongs to
that client: the Lobby entry of every other client and the send channels are
as before; at most one session is gone from `Games` and none is added; every
session other than the one `GameByClientPlaying` finds is unchanged and still
in `Games`; and when the client is a player of no session `Games` is
unchanged. -/
theorem Disconnect_frame (s : Server) (c : ClientRef) (hwf : s.WF) :
    (s.profiled → ∃ s', s.Disconnect c = some s') ∧
    ∀ s', s.Disconnect c = some s' →
      (∀ c', c' ≠ c → s'.Lobby.lookup c' = s.Lobby.lookup c') ∧
      (∀ e, e.1 ≠ c → (e ∈ s'.Lobby ↔ e ∈ s.Lobby)) ∧
      s'.sent = s.sent ∧
      s.Games.length ≤ s'.Games.length + 1 ∧ s'.Games.length ≤ s.Games.length ∧
      (∀ k game, s.GameByClientPlaying c = some (some (k, game)) →
        ∀ k', k' ≠ k → s'.Games.lookup k' = s.Games.lookup k') ∧
      (s.GameByClientPlaying c = some none → s'.Games = s.Games) ∧
      (s.isPlaying c = false → s'.Games = s.Games) := by
  refine ⟨Disconnect_completes s c, ?_⟩
  intro s' h
  obtain ⟨hl, hsent, hg⟩ := Server.Disconnect_some s s' c h
  have hmiss : s.isPlaying c = false → s.GameByClientPlaying c = some none := by
    intro hnot
    apply GameByClientPlaying_miss s c hnot
    intro hnone
    unfold Server.Disconnect at h
    simp [hnone] at h
  refine ⟨?_, ?_, hsent, ?_, ?_, ?_, ?_, ?_⟩
  · intro c' hc'
    rw [hl, GoMap.lookup_remove_ne _ _ _ hc']
  · intro e he
    rw [hl, GoMap.mem_remove]
    exact ⟨fun h1 => h1.1, fun h1 => ⟨h1, he⟩⟩
  · rcases hg with ⟨_, hg⟩ | ⟨k, game, hf, hg⟩
    · rw [hg]; omega
    · have hmem := (gamesScanPlaying_found c s.Games k game hf).1
      have hk : k ∈ s.Games.keys := GoMap.mem_keys_of_mem _ _ hmem
      have hid : game.ID = k := hwf.2.2 _ hmem
      rcases hg with ⟨_, hg⟩ | ⟨_, hg⟩
      · rw [hg, GoMap.length_store]
        simp [hk]
      · rw [hg, hid, GoMap.remove_store]
        have := GoMap.length_remove _ _ hwf.2.1 hk
        omega
  · rcases hg with ⟨_, hg⟩ | ⟨k, game, hf, hg⟩
    · rw [hg]
    · have hmem := (gamesScanPlaying_found c s.Games k game hf).1
      have hk : k ∈ s.Games.keys := GoMap.mem_keys_of_mem _ _ hmem
      have hid : game.ID = k := hwf.2.2 _ hmem
      rcases hg with ⟨_, hg⟩ | ⟨_, hg⟩
      · rw [hg, GoMap.length_store]
        simp [hk]
      · rw [hg, hid, GoMap.remove_store]
        have := GoMap.length_remove _ _ hwf.2.1 hk
        omega
  · intro k game hfound k' hk'
    rcases hg with ⟨hf, _⟩ | ⟨k1, game1, hf, hg⟩
    · rw [hf] at hfound
      simp at hfound
    · rw [hf] at hfound
      simp only [Option.some.injEq, Prod.mk.injEq] at hfound
      obtain ⟨rfl, rfl⟩ := hfound
      have hmem := (gamesScanPlaying_found c s.Games k1 game1 hf).1
      have hid : game1.ID = k1 := hwf.2.2 _ hmem
      rcases hg with ⟨_, hg⟩ | ⟨_, hg⟩
      · rw [hg, GoMap.lookup_store_ne _ _ _ _ hk']
      · rw [hg, hid, GoMap.lookup_remove_ne _ _ _ hk', GoMap.lookup_store_ne _ _ _ _ hk']
  · intro hnone
    rcases hg with ⟨_, hg⟩ | ⟨k, game, hf, _⟩
    · exact hg
    · rw [hf] at hnone
      simp at hnone
  · intro hnot
    have hnone := hmiss hnot
    rcases hg with ⟨_, hg⟩ | ⟨k, game, hf, _⟩
    · exact hg
    · rw [hf] at hnone
      simp at hnone

theorem Disconnect_frame_witness :
    twoGames.WF ∧ twoGames.profiled ∧
    twoGames.GameByClientPlaying 3 = some (some ("g2", duoGame2)) ∧
    ∃ s', twoGames.Disconnect 3 = some s' ∧
      s'.Games.lookup "g1" = twoGames.Games.lookup "g1" ∧
      s'.Lobby.lookup 1 = twoGames.Lobby.lookup 1 ∧
      s'.Games.length + 1 = twoGames.Games.length :=
  have hwf : twoGames.WF := by
    unfold Server.WF GoMap.WF
    decide
  have hp : twoGames.profiled := by
    unfold Server.profiled
    decide
  ⟨hwf, hp, by decide,
    match (Disconnect_frame twoGames 3 hwf).1 hp with
    | ⟨s', hs⟩ =>
      ⟨s', hs,
        ((Disconnect_frame twoGames 3 hwf).2 s' hs).2.2.2.2.2.1 "g2" duoGame2 (by decide)
          "g1" (by decide),
        ((Disconnect_frame twoGames 3 hwf).2 s' hs).1 1 (by decide),
        by
          have h1 : (twoGames.Disconnect 3).map (fun t => t.Games.length + 1)
              = some twoGames.Games.length := by decide
          rw [hs] at h1
          exact Option.some.inj h1⟩⟩

end Chess
